import Mathlib

/-!
# Verification of the sampling and rate-derivation code of `monitor.cpp`

The file embeds the arithmetic of `SystemMonitor` (per-core CPU load, network
rates, disk usage, process ranking) and proves properties of it.

* `uint64_t` values are natural numbers, every machine operation reduces
  modulo `2 ^ 64`.
* `double` values are the rational numbers they denote; each arithmetic
  operation and each integer-to-double conversion rounds its exact result to
  the nearest binary64 number (53 bit significand, ties to even), see
  `roundDouble`.  The doubles on the modelled paths are `0` or of a magnitude
  between `2 ^ (-64)` and `2 ^ 103` (they come from 64-bit integers by a few
  operations), far inside the binary64 exponent range; overflow to infinity
  and subnormal numbers are therefore left out of `roundDouble`.  A quotient
  whose divisor may be zero is `fdivChecked`, which has no finite value then.
* Operating system queries are inputs of the modelled functions.
* The ranking of processes calls `std::sort`; `StdSort.sort` is the
  implementation of libstdc++, `IsStdSort` what the C++ standard guarantees of
  every implementation.
-/

set_option autoImplicit false

namespace SystemMonitor

/-! ## Machine arithmetic -/

/-- Addition of `uint64_t`. -/
def addU64 (a b : Nat) : Nat := (a + b) % 2 ^ 64

/-- Subtraction of `uint64_t`. -/
def subU64 (a b : Nat) : Nat := (a % 2 ^ 64 + (2 ^ 64 - b % 2 ^ 64)) % 2 ^ 64

/-- Multiplication of `uint64_t`. -/
def mulU64 (a b : Nat) : Nat := (a * b) % 2 ^ 64

/-! ## binary64 arithmetic -/

/-- Nearest integer of a rational number, a tie goes to the even integer. -/
def roundHalfEven (q : ℚ) : ℤ :=
  let f := ⌊q⌋
  let r := q - f
  if r < 1 / 2 then f
  else if 1 / 2 < r then f + 1
  else if f % 2 = 0 then f else f + 1

/-- Rounding of a rational number to binary64, round to nearest, ties to
even: for `2 ^ e ≤ |x| < 2 ^ (e + 1)` the result is the multiple of
`2 ^ (e - 52)` nearest to `x`. -/
def roundDouble (x : ℚ) : ℚ :=
  if x = 0 then 0
  else
    let ulp : ℚ := 2 ^ (Int.log 2 |x| - 52)
    (roundHalfEven (x / ulp) : ℚ) * ulp

/-- Sum of two doubles. -/
def fadd (x y : ℚ) : ℚ := roundDouble (x + y)

/-- Difference of two doubles. -/
def fsub (x y : ℚ) : ℚ := roundDouble (x - y)

/-- Product of two doubles. -/
def fmul (x y : ℚ) : ℚ := roundDouble (x * y)

/-- Quotient of two doubles, the divisor is not zero. -/
def fdiv (x y : ℚ) : ℚ := roundDouble (x / y)

/-- Quotient of two doubles where the divisor may be zero. The result `none`
stands for a value that is not a finite number: a division by zero gives an
infinity or a NaN. -/
def fdivChecked (x y : ℚ) : Option ℚ := if y = 0 then none else some (fdiv x y)

/-- Conversion of an unsigned integer to `double`. -/
def toDouble (n : Nat) : ℚ := roundDouble (n : ℚ)

/-- The library function `difftime` on two `time_t` values: their difference
in seconds as a `double`. -/
def difftime (time1 time0 : Int) : ℚ := roundDouble ((time1 - time0 : Int) : ℚ)

/-! ## `std::map` with string keys -/

/-- A `std::map<std::string, V>`: its entries, in increasing key order. -/
abbrev StdMap (V : Type) := List (String × V)

/-- The lookup `m.find(k)`; `none` stands for `m.end()`. -/
def StdMap.find {V : Type} : StdMap V → String → Option V
  | [], _ => none
  | (k', v) :: rest, k => if k' = k then some v else StdMap.find rest k

/-- The effect of `m[k] = v`: the entry of `k` is overwritten, a missing key
is inserted at its place in key order. -/
def StdMap.assign {V : Type} : StdMap V → String → V → StdMap V
  | [], k, v => [(k, v)]
  | (k', v') :: rest, k, v =>
    if k < k' then (k, v) :: (k', v') :: rest
    else if k = k' then (k, v) :: rest
    else (k', v') :: StdMap.assign rest k v

/-- The access `m[k]`: the mapped value and the map after the access; a
missing key is inserted with the value-initialised `dflt`. -/
def StdMap.index {V : Type} (m : StdMap V) (k : String) (dflt : V) : V × StdMap V :=
  match StdMap.find m k with
  | some v => (v, m)
  | none => (dflt, StdMap.assign m k dflt)

/-- Keys of a map, in iteration order. -/
def StdMap.keys {V : Type} (m : StdMap V) : List String := m.map Prod.fst

/-! ## Data of `SystemMonitor` -/

/-- Tick counters of one core, `struct CPUInfo`. -/
structure CPUInfo where
  user : Nat
  system : Nat
  idle : Nat
  nice : Nat
  deriving DecidableEq, Repr

/-- Byte counters of one interface, `struct NetworkInfo`. -/
structure NetworkInfo where
  bytes_in : Nat
  bytes_out : Nat
  deriving DecidableEq, Repr

/-- One row of the process table, `struct ProcessInfo`. -/
structure ProcessInfo where
  pid : Int
  name : String
  user : String
  cpu_percent : ℚ
  memory : Nat
  deriving DecidableEq, Repr

end SystemMonitor

/-- The data members of `class SystemMonitor`. -/
structure SystemMonitor where
  prev_cpu_info : List SystemMonitor.CPUInfo
  prev_net_info : SystemMonitor.StdMap SystemMonitor.NetworkInfo
  prev_net_time : Int
  deriving DecidableEq, Repr

namespace SystemMonitor

/-! ## CPU load -/

/-- The method `calculateCPULoad`. -/
def calculateCPULoad (prev current : CPUInfo) : ℚ :=
  let prev_total := addU64 (addU64 (addU64 prev.user prev.system) prev.idle) prev.nice
  let current_total :=
    addU64 (addU64 (addU64 current.user current.system) current.idle) current.nice
  let total_diff := subU64 current_total prev_total
  let idle_diff := subU64 current.idle prev.idle
  if total_diff = 0 then 0
  else fmul 100 (fsub 1 (fdiv (toDouble idle_diff) (toDouble total_diff)))

/-- The 64-bit sum of the four counters of a sample: the variables
`prev_total` and `current_total` of `calculateCPULoad`. -/
def totalTicks (c : CPUInfo) : Nat :=
  addU64 (addU64 (addU64 c.user c.system) c.idle) c.nice

/-- The loop of `getCPUUsage` from core `i` on: `rest` are the cores of the
snapshot still to visit, `prev` is `prev_cpu_info`, `usage` is `cpu_usage`.
The result `none` records the access `prev_cpu_info[i]` with `i` past the end
of the vector, whose behaviour is undefined. -/
def getCPUUsageLoop : Nat → List CPUInfo → List CPUInfo → List ℚ →
    Option (List ℚ × List CPUInfo)
  | _, [], prev, usage => some (usage, prev)
  | i, current :: rest, prev, usage =>
    match prev[i]? with
    | none => none
    | some p =>
      getCPUUsageLoop (i + 1) rest (prev.set i current) (usage.set i (calculateCPULoad p current))

/-- The method `getCPUUsage`. The answer of `host_processor_info` is the
argument `cpu_load_info`, `none` when the call does not return
`KERN_SUCCESS`. -/
def getCPUUsage (self : SystemMonitor) (cpu_load_info : Option (List CPUInfo)) :
    Option (List ℚ × SystemMonitor) :=
  match cpu_load_info with
  | none => some ([], self)
  | some info =>
    match getCPUUsageLoop 0 info self.prev_cpu_info (List.replicate info.length 0) with
    | none => none
    | some (cpu_usage, prev) => some (cpu_usage, { self with prev_cpu_info := prev })

/-- The loop of `getTotalCPUUsage` that adds the elements of `cpu_usage` to
`total`. -/
def getTotalCPUUsageLoop : List ℚ → ℚ → ℚ
  | [], total => total
  | usage :: rest, total => getTotalCPUUsageLoop rest (fadd total usage)

/-- The method `getTotalCPUUsage`, with the snapshot its call of `getCPUUsage`
obtains. -/
def getTotalCPUUsage (self : SystemMonitor) (cpu_load_info : Option (List CPUInfo)) :
    Option (ℚ × SystemMonitor) :=
  match getCPUUsage self cpu_load_info with
  | none => none
  | some (cpu_usage, self') =>
    if cpu_usage.isEmpty then some (0, self')
    else some (fdiv (getTotalCPUUsageLoop cpu_usage 0) (toDouble cpu_usage.length), self')

/-- The CPU section of one pass of the loop of `main`: the total that is
printed and the per-core values that are printed. The two snapshots are the
answers to the two calls of `host_processor_info` in this pass. -/
def mainCPUSection (monitor : SystemMonitor) (snapshot1 snapshot2 : Option (List CPUInfo)) :
    Option ((ℚ × List ℚ) × SystemMonitor) :=
  match getTotalCPUUsage monitor snapshot1 with
  | none => none
  | some (total_cpu, monitor1) =>
    match getCPUUsage monitor1 snapshot2 with
    | none => none
    | some (cpu_usage, monitor2) => some ((total_cpu, cpu_usage), monitor2)

/-- The arithmetic mean of a sequence of doubles, in double arithmetic: the sum
of the elements, added up from the first one on, divided by their number; `0`
for the empty sequence. This is the specification `getTotalCPUUsage` is
compared with. -/
def arithmeticMean (xs : List ℚ) : ℚ :=
  if xs = [] then 0 else fdiv (xs.foldl fadd 0) (toDouble xs.length)

/-! ## Disk usage -/

/-- The fields of `struct statfs` that are read. -/
structure Statfs where
  f_fstypename : String
  f_mntonname : String
  f_blocks : Nat
  f_bsize : Nat
  f_bfree : Nat
  deriving DecidableEq, Repr

/-- The variable `total` of `getDiskUsage` and `getDiskSizes`. -/
def diskTotal (m : Statfs) : Nat := mulU64 m.f_blocks m.f_bsize

/-- The variable `used` of `getDiskUsage` and `getDiskSizes`. -/
def diskUsed (m : Statfs) : Nat := subU64 (diskTotal m) (mulU64 m.f_bfree m.f_bsize)

/-- The method `getDiskUsage` on the mount table `getmntinfo` returns. A
percentage `none` is a value that is not a finite number. -/
def getDiskUsage : List Statfs → List (String × Option ℚ)
  | [] => []
  | m :: rest =>
    if m.f_fstypename = "devfs" then getDiskUsage rest
    else
      let total := diskTotal m
      let used := diskUsed m
      let usage_percent : Option ℚ :=
        if 0 < total then fdivChecked (fmul 100 (toDouble used)) (toDouble total) else some 0
      (m.f_mntonname, usage_percent) :: getDiskUsage rest

/-- The method `getDiskSizes` on the mount table `getmntinfo` returns. -/
def getDiskSizes : List Statfs → List (String × Nat × Nat)
  | [] => []
  | m :: rest =>
    if m.f_fstypename = "devfs" then getDiskSizes rest
    else (m.f_mntonname, diskUsed m, diskTotal m) :: getDiskSizes rest

/-- The disk section of the loop of `main`: the percentage printed for each
entry of `getDiskSizes`. -/
def mainDiskSection : List (String × Nat × Nat) → List (String × Option ℚ)
  | [] => []
  | (mount_point, used, total) :: rest =>
    let usage_percent : Option ℚ :=
      if 0 < total then fdivChecked (fmul 100 (toDouble used)) (toDouble total) else some 0
    (mount_point, usage_percent) :: mainDiskSection rest

/-! ## Network usage -/

/-- The fields of one `struct ifaddrs` record that are read; `ifa_name` and
`sa_family` are `none` for a null `ifa_name` and a null `ifa_addr`, the two
counters are those of the `if_data` record `ifa_data` points to. -/
structure IfAddrs where
  ifa_name : Option String
  sa_family : Option Nat
  ifi_ibytes : Nat
  ifi_obytes : Nat
  deriving DecidableEq, Repr

/-- The address family constant `AF_LINK` of macOS. -/
def AF_LINK : Nat := 18

/-- The loop of `updateNetworkInfo` over the records of `getifaddrs`. -/
def updateNetworkInfoLoop : List IfAddrs → StdMap NetworkInfo → StdMap NetworkInfo
  | [], info => info
  | ifa :: rest, info =>
    match ifa.sa_family, ifa.ifa_name with
    | some family, some iface_name =>
      if family = AF_LINK then
        if iface_name = "lo0" then updateNetworkInfoLoop rest info
        else
          let (e1, info1) := StdMap.index info iface_name ⟨0, 0⟩
          let info2 := StdMap.assign info1 iface_name { e1 with bytes_in := ifa.ifi_ibytes }
          let (e2, info3) := StdMap.index info2 iface_name ⟨0, 0⟩
          let info4 := StdMap.assign info3 iface_name { e2 with bytes_out := ifa.ifi_obytes }
          updateNetworkInfoLoop rest info4
      else updateNetworkInfoLoop rest info
    | _, _ => updateNetworkInfoLoop rest info

/-- The method `updateNetworkInfo`: the content of the map it fills. The
answer of `getifaddrs` is the argument, `none` when the call returns `-1`. -/
def updateNetworkInfo (ifaddr : Option (List IfAddrs)) : StdMap NetworkInfo :=
  match ifaddr with
  | none => []
  | some records => updateNetworkInfoLoop records []

/-- The loop of `getNetworkUsage` over `current_net_info`: `prev` is
`prev_net_info`, `net_usage` the result under construction. -/
def getNetworkUsageLoop (time_diff : ℚ) :
    List (String × NetworkInfo) → StdMap NetworkInfo → StdMap (ℚ × ℚ) →
    StdMap NetworkInfo × StdMap (ℚ × ℚ)
  | [], prev_net_info, net_usage => (prev_net_info, net_usage)
  | (interface, current) :: rest, prev_net_info, net_usage =>
    if (StdMap.find prev_net_info interface).isSome then
      let (prev, prev_net_info1) := StdMap.index prev_net_info interface ⟨0, 0⟩
      let in_diff := subU64 current.bytes_in prev.bytes_in
      let out_diff := subU64 current.bytes_out prev.bytes_out
      let in_rate := fdiv (toDouble in_diff) time_diff
      let out_rate := fdiv (toDouble out_diff) time_diff
      getNetworkUsageLoop time_diff rest prev_net_info1
        (StdMap.assign net_usage interface (in_rate, out_rate))
    else getNetworkUsageLoop time_diff rest prev_net_info net_usage

/-- The value of `time_diff` in `getNetworkUsage`. -/
def elapsedTime (current_time prev_net_time : Int) : ℚ :=
  let time_diff := difftime current_time prev_net_time
  if time_diff ≤ 0 then 1 else time_diff

/-- The method `getNetworkUsage`. The answers of `getifaddrs` and of
`time(nullptr)` are the arguments. -/
def getNetworkUsage (self : SystemMonitor) (ifaddr : Option (List IfAddrs))
    (current_time : Int) : StdMap (ℚ × ℚ) × SystemMonitor :=
  let current_net_info := updateNetworkInfo ifaddr
  let time_diff := elapsedTime current_time self.prev_net_time
  let (_, net_usage) :=
    getNetworkUsageLoop time_diff current_net_info self.prev_net_info []
  (net_usage, { self with prev_net_info := current_net_info, prev_net_time := current_time })

/-- The constructor of `SystemMonitor`: the first CPU snapshot (none stored
when `host_processor_info` fails), the interface map and the time. -/
def init (cpu_load_info : Option (List CPUInfo)) (ifaddr : Option (List IfAddrs))
    (now : Int) : SystemMonitor :=
  { prev_cpu_info := match cpu_load_info with
      | some info => info
      | none => []
    prev_net_info := updateNetworkInfo ifaddr
    prev_net_time := now }

/-! ## Process ranking -/

/-- The comparison given to `std::sort` in `getTopProcesses`. -/
def cpuGreater (a b : ProcessInfo) : Bool := decide (a.cpu_percent > b.cpu_percent)

/-- What the C++ standard guarantees of `std::sort` with the comparison
`cpuGreater`: the result is a permutation of the range in which no element is
ordered before an element that precedes it. -/
def IsStdSort (sort : List ProcessInfo → List ProcessInfo) : Prop :=
  ∀ l, (sort l).Perm l ∧ (sort l).Pairwise (fun a b => cpuGreater b a = false)

/-- An implementation of `std::sort` with the comparison `cpuGreater`:
insertion from the back of the range, which keeps equal elements in their
order. -/
def insertionSortByCpu (l : List ProcessInfo) : List ProcessInfo :=
  l.insertionSort (fun a b => b.cpu_percent ≤ a.cpu_percent)

/-- The process table of the ranking scenario: the `pid` of a process is its
index in the enumeration, the CPU percentages are `5, 90, 12, 90, 3`. -/
def scenarioProcesses : List ProcessInfo :=
  [⟨0, "p0", "u", 5, 0⟩, ⟨1, "p1", "u", 90, 0⟩, ⟨2, "p2", "u", 12, 0⟩, ⟨3, "p3", "u", 90, 0⟩,
   ⟨4, "p4", "u", 3, 0⟩]

/-- The ranking step of `getTopProcesses`: `processes` is the vector the
enumeration loop has collected, `sort` the library's `std::sort`. -/
def getTopProcesses (sort : List ProcessInfo → List ProcessInfo)
    (processes : List ProcessInfo) (count : Nat) : List ProcessInfo :=
  let processes := sort processes
  if processes.length > count then processes.take count else processes

/-- The default process, for reads of the vector by position. -/
instance : Inhabited ProcessInfo := ⟨⟨0, "", "", 0, 0⟩⟩

/-! ## `std::sort` of libstdc++

The functions of `bits/stl_algo.h` and `bits/stl_heap.h` (GCC 12) that
`std::sort` runs, on a vector given as the list of its elements; positions are
offsets from `begin()`. -/

namespace StdSort

/-- The element `*(begin + i)` of the vector. -/
def elem {α : Type} [Inhabited α] (v : List α) (i : Nat) : α := v.getD i default

/-- The function `std::iter_swap` on the positions `i` and `j`. -/
def iter_swap {α : Type} [Inhabited α] (v : List α) (i j : Nat) : List α :=
  (v.set i (elem v j)).set j (elem v i)

/-- The function `std::__lg`: the binary logarithm rounded down. -/
def lg : Nat → Nat → Nat
  | 0, _ => 0
  | fuel + 1, n => if n < 2 then 0 else lg fuel (n / 2) + 1

/-- The loop of `__unguarded_linear_insert`: `val` moves down from position
`last` past the elements it is ordered before. The caller guarantees that an
element stops it before the start of the vector. -/
def unguarded_linear_insert_loop {α : Type} [Inhabited α]
    (comp : α → α → Bool) (val : α) : List α → Nat → List α
  | v, 0 => v.set 0 val
  | v, next + 1 =>
    if comp val (elem v next) then
      unguarded_linear_insert_loop comp val (v.set (next + 1) (elem v next)) next
    else v.set (next + 1) val

/-- The function `__unguarded_linear_insert`. -/
def unguarded_linear_insert {α : Type} [Inhabited α]
    (comp : α → α → Bool) (v : List α) (last : Nat) : List α :=
  unguarded_linear_insert_loop comp (elem v last) v last

/-- The loop of `__insertion_sort` from position `i` on, `n` positions to go. -/
def insertion_sort_loop {α : Type} [Inhabited α]
    (comp : α → α → Bool) (first : Nat) : Nat → Nat → List α → List α
  | 0, _, v => v
  | n + 1, i, v =>
    if comp (elem v i) (elem v first) then
      insertion_sort_loop comp first n (i + 1)
        (v.take first ++ elem v i :: (v.drop first).take (i - first) ++ v.drop (i + 1))
    else insertion_sort_loop comp first n (i + 1) (unguarded_linear_insert comp v i)

/-- The function `__insertion_sort` on the range `[first, last)`. -/
def insertion_sort {α : Type} [Inhabited α]
    (comp : α → α → Bool) (v : List α) (first last : Nat) : List α :=
  if first = last then v
  else insertion_sort_loop comp first (last - (first + 1)) (first + 1) v

/-- The loop of `__unguarded_insertion_sort` from position `i` on. -/
def unguarded_insertion_sort_loop {α : Type} [Inhabited α]
    (comp : α → α → Bool) : Nat → Nat → List α → List α
  | 0, _, v => v
  | n + 1, i, v =>
    unguarded_insertion_sort_loop comp n (i + 1) (unguarded_linear_insert comp v i)

/-- The function `__unguarded_insertion_sort` on the range `[first, last)`. -/
def unguarded_insertion_sort {α : Type} [Inhabited α]
    (comp : α → α → Bool) (v : List α) (first last : Nat) : List α :=
  unguarded_insertion_sort_loop comp (last - first) first v

/-- The function `__final_insertion_sort`, with `_S_threshold = 16`. -/
def final_insertion_sort {α : Type} [Inhabited α]
    (comp : α → α → Bool) (v : List α) (first last : Nat) : List α :=
  if last - first > 16 then
    unguarded_insertion_sort comp (insertion_sort comp v first (first + 16)) (first + 16) last
  else insertion_sort comp v first last

/-- The function `__move_median_to_first`. -/
def move_median_to_first {α : Type} [Inhabited α]
    (comp : α → α → Bool) (v : List α) (result a b c : Nat) : List α :=
  if comp (elem v a) (elem v b) then
    if comp (elem v b) (elem v c) then iter_swap v result b
    else if comp (elem v a) (elem v c) then iter_swap v result c
    else iter_swap v result a
  else if comp (elem v a) (elem v c) then iter_swap v result a
  else if comp (elem v b) (elem v c) then iter_swap v result c
  else iter_swap v result b

/-- The loop `while (comp(first, pivot)) ++first` of `__unguarded_partition`. -/
def partition_scan_up {α : Type} [Inhabited α]
    (comp : α → α → Bool) (v : List α) (pivot : Nat) : Nat → Nat → Nat
  | 0, first => first
  | n + 1, first =>
    if comp (elem v first) (elem v pivot) then partition_scan_up comp v pivot n (first + 1)
    else first

/-- The loop `while (comp(pivot, last)) --last` of `__unguarded_partition`. -/
def partition_scan_down {α : Type} [Inhabited α]
    (comp : α → α → Bool) (v : List α) (pivot : Nat) : Nat → Nat
  | 0 => 0
  | last + 1 =>
    if comp (elem v pivot) (elem v (last + 1)) then partition_scan_down comp v pivot last
    else last + 1

/-- The outer loop of `__unguarded_partition`; every round lowers `last`, so
it ends within `last` rounds. -/
def unguarded_partition_loop {α : Type} [Inhabited α]
    (comp : α → α → Bool) (pivot : Nat) : Nat → List α → Nat → Nat → Nat × List α
  | 0, v, first, _ => (first, v)
  | n + 1, v, first, last =>
    let first1 := partition_scan_up comp v pivot (v.length - first) first
    let last1 := partition_scan_down comp v pivot (last - 1)
    if first1 < last1 then
      unguarded_partition_loop comp pivot n (iter_swap v first1 last1) (first1 + 1) last1
    else (first1, v)

/-- The function `__unguarded_partition`: the cut and the vector. -/
def unguarded_partition {α : Type} [Inhabited α]
    (comp : α → α → Bool) (v : List α) (first last pivot : Nat) : Nat × List α :=
  unguarded_partition_loop comp pivot last v first last

/-- The function `__unguarded_partition_pivot`. -/
def unguarded_partition_pivot {α : Type} [Inhabited α]
    (comp : α → α → Bool) (v : List α) (first last : Nat) : Nat × List α :=
  let mid := first + (last - first) / 2
  unguarded_partition comp (move_median_to_first comp v first (first + 1) mid (last - 1))
    (first + 1) last first

/-- The loop of `__push_heap`. -/
def push_heap_loop {α : Type} [Inhabited α]
    (comp : α → α → Bool) (first topIndex : Nat) (value : α) : Nat → List α → Nat → List α
  | 0, v, holeIndex => v.set (first + holeIndex) value
  | n + 1, v, holeIndex =>
    let parent := (holeIndex - 1) / 2
    if holeIndex > topIndex && comp (elem v (first + parent)) value then
      push_heap_loop comp first topIndex value n
        (v.set (first + holeIndex) (elem v (first + parent))) parent
    else v.set (first + holeIndex) value

/-- The function `__push_heap`. -/
def push_heap {α : Type} [Inhabited α]
    (comp : α → α → Bool) (v : List α) (first holeIndex topIndex : Nat) (value : α) : List α :=
  push_heap_loop comp first topIndex value (holeIndex + 1) v holeIndex

/-- The first loop of `__adjust_heap`: the hole moves down to the larger
child; the result is the vector and the position of the hole. -/
def adjust_heap_loop {α : Type} [Inhabited α]
    (comp : α → α → Bool) (first len : Nat) : Nat → List α → Nat → List α × Nat
  | 0, v, secondChild => (v, secondChild)
  | n + 1, v, secondChild =>
    if secondChild < (len - 1) / 2 then
      let child := 2 * (secondChild + 1)
      let child := if comp (elem v (first + child)) (elem v (first + (child - 1))) then child - 1
        else child
      adjust_heap_loop comp first len n (v.set (first + secondChild) (elem v (first + child)))
        child
    else (v, secondChild)

/-- The function `__adjust_heap`. -/
def adjust_heap {α : Type} [Inhabited α]
    (comp : α → α → Bool) (v : List α) (first holeIndex len : Nat) (value : α) : List α :=
  let (v1, secondChild) := adjust_heap_loop comp first len len v holeIndex
  if len % 2 = 0 && (secondChild : Int) = ((len : Int) - 2) / 2 then
    let child := 2 * (secondChild + 1)
    push_heap comp (v1.set (first + secondChild) (elem v1 (first + (child - 1)))) first
      (child - 1) holeIndex value
  else push_heap comp v1 first secondChild holeIndex value

/-- The function `__pop_heap` on the heap `[first, last)` with the element at
`result`. -/
def pop_heap {α : Type} [Inhabited α]
    (comp : α → α → Bool) (v : List α) (first last result : Nat) : List α :=
  adjust_heap comp (v.set result (elem v first)) first 0 (last - first) (elem v result)

/-- The loop of `__make_heap` from `parent` down to `0`. -/
def make_heap_loop {α : Type} [Inhabited α]
    (comp : α → α → Bool) (first len : Nat) : Nat → List α → List α
  | 0, v => adjust_heap comp v first 0 len (elem v first)
  | parent + 1, v =>
    make_heap_loop comp first len parent
      (adjust_heap comp v first (parent + 1) len (elem v (first + (parent + 1))))

/-- The function `__make_heap`. -/
def make_heap {α : Type} [Inhabited α]
    (comp : α → α → Bool) (v : List α) (first last : Nat) : List α :=
  if last - first < 2 then v
  else make_heap_loop comp first (last - first) ((last - first - 2) / 2) v

/-- The loop of `__sort_heap`, `n` being `last - first`. -/
def sort_heap_loop {α : Type} [Inhabited α]
    (comp : α → α → Bool) (first : Nat) : Nat → List α → List α
  | 0, v => v
  | n + 1, v =>
    if n + 1 > 1 then sort_heap_loop comp first n (pop_heap comp v first (first + n) (first + n))
    else v

/-- The function `__sort_heap`. -/
def sort_heap {α : Type} [Inhabited α]
    (comp : α → α → Bool) (v : List α) (first last : Nat) : List α :=
  sort_heap_loop comp first (last - first) v

/-- The loop of `__heap_select` from position `i` on. -/
def heap_select_loop {α : Type} [Inhabited α]
    (comp : α → α → Bool) (first middle : Nat) : Nat → Nat → List α → List α
  | 0, _, v => v
  | n + 1, i, v =>
    if comp (elem v i) (elem v first) then
      heap_select_loop comp first middle n (i + 1) (pop_heap comp v first middle i)
    else heap_select_loop comp first middle n (i + 1) v

/-- The function `__heap_select`. -/
def heap_select {α : Type} [Inhabited α]
    (comp : α → α → Bool) (v : List α) (first middle last : Nat) : List α :=
  heap_select_loop comp first middle (last - middle) middle (make_heap comp v first middle)

/-- The function `__partial_sort`. -/
def partial_sort {α : Type} [Inhabited α]
    (comp : α → α → Bool) (v : List α) (first middle last : Nat) : List α :=
  sort_heap comp (heap_select comp v first middle last) first middle

/-- The function `__introsort_loop`; a round of its loop and a recursive call
both lower `depth_limit`. -/
def introsort_loop {α : Type} [Inhabited α]
    (comp : α → α → Bool) : Nat → List α → Nat → Nat → List α
  | 0, v, first, last =>
    if last - first > 16 then partial_sort comp v first last last else v
  | depth_limit + 1, v, first, last =>
    if last - first > 16 then
      let (cut, v1) := unguarded_partition_pivot comp v first last
      introsort_loop comp depth_limit (introsort_loop comp depth_limit v1 cut last) first cut
    else v

/-- The function `std::sort` on the whole vector. -/
def sort {α : Type} [Inhabited α] (comp : α → α → Bool) (v : List α) : List α :=
  if v.length = 0 then v
  else
    final_insertion_sort comp
      (introsort_loop comp (lg v.length v.length * 2) v 0 v.length) 0 v.length

end StdSort

/-! ## Lemmas on machine arithmetic -/

theorem addU64_eq_add {a b : Nat} (h : a + b < 2 ^ 64) : addU64 a b = a + b := by
  unfold addU64
  exact Nat.mod_eq_of_lt h

theorem subU64_eq_sub {a b : Nat} (hba : b ≤ a) (ha : a < 2 ^ 64) : subU64 a b = a - b := by
  unfold subU64
  norm_num at ha ⊢
  omega

theorem subU64_eq_wrap {a b : Nat} (hab : a < b) (hb : b < 2 ^ 64) :
    subU64 a b = 2 ^ 64 - (b - a) := by
  unfold subU64
  norm_num at hb ⊢
  omega

/-! ## Lemmas on rounding -/

theorem roundHalfEven_intCast (m : ℤ) : roundHalfEven (m : ℚ) = m := by
  simp [roundHalfEven]

theorem floor_le_roundHalfEven (q : ℚ) : ⌊q⌋ ≤ roundHalfEven q := by
  unfold roundHalfEven
  simp only
  split_ifs <;> omega

theorem roundHalfEven_eq_of_lt {q : ℚ} {m : ℤ} (h1 : (m : ℚ) - 1 / 2 < q)
    (h2 : q < (m : ℚ) + 1 / 2) : roundHalfEven q = m := by
  unfold roundHalfEven
  simp only
  have hf1 : (⌊q⌋ : ℚ) ≤ q := Int.floor_le q
  have hf2 : q < (⌊q⌋ : ℚ) + 1 := Int.lt_floor_add_one q
  split_ifs with ha hb hc
  · have h5 : m < ⌊q⌋ + 1 := by
      have h3 : (m : ℚ) < (⌊q⌋ : ℚ) + 1 := by linarith
      exact_mod_cast h3
    have h6 : ⌊q⌋ < m + 1 := by
      have h4 : (⌊q⌋ : ℚ) < (m : ℚ) + 1 := by linarith
      exact_mod_cast h4
    omega
  · have h5 : m < ⌊q⌋ + 2 := by
      have h3 : (m : ℚ) < (⌊q⌋ : ℚ) + 2 := by linarith
      exact_mod_cast h3
    have h6 : ⌊q⌋ < m := by
      have h4 : (⌊q⌋ : ℚ) < (m : ℚ) := by linarith
      exact_mod_cast h4
    omega
  all_goals
    exfalso
    have hr : q - ⌊q⌋ = 1 / 2 := le_antisymm (not_lt.mp hb) (not_lt.mp ha)
    have h5 : m < ⌊q⌋ + 1 := by
      have h3 : (m : ℚ) < (⌊q⌋ : ℚ) + 1 := by linarith
      exact_mod_cast h3
    have h6 : ⌊q⌋ < m := by
      have h4 : (⌊q⌋ : ℚ) < (m : ℚ) := by linarith
      exact_mod_cast h4
    omega

theorem log_eq_of_bounds {x : ℚ} {e : ℤ} (h1 : (2 : ℚ) ^ e ≤ x) (h2 : x < (2 : ℚ) ^ (e + 1)) :
    Int.log 2 x = e := by
  have hx : 0 < x := lt_of_lt_of_le (by positivity) h1
  have a1 : e ≤ Int.log 2 x :=
    (Int.zpow_le_iff_le_log (by norm_num) hx).mp (by exact_mod_cast h1)
  have a2 : Int.log 2 x < e + 1 :=
    (Int.lt_zpow_iff_log_lt (by norm_num) hx).mp (by exact_mod_cast h2)
  omega

/-- Evaluation of `roundDouble`: the binade `e` of `x` and the integer `m`
nearest to `x / 2 ^ (e - 52)` give the result `m * 2 ^ (e - 52)`. -/
theorem roundDouble_eval {x : ℚ} (e m : ℤ) (h1 : (2 : ℚ) ^ e ≤ |x|)
    (h2 : |x| < (2 : ℚ) ^ (e + 1)) (h3 : (m : ℚ) - 1 / 2 < x / 2 ^ (e - 52))
    (h4 : x / 2 ^ (e - 52) < (m : ℚ) + 1 / 2) :
    roundDouble x = (m : ℚ) * 2 ^ (e - 52) := by
  have hx : x ≠ 0 := by
    intro h
    rw [h, abs_zero] at h1
    exact absurd h1 (not_le.mpr (by positivity))
  unfold roundDouble
  rw [if_neg hx]
  simp only
  rw [log_eq_of_bounds h1 h2, roundHalfEven_eq_of_lt h3 h4]

theorem roundDouble_zero : roundDouble 0 = 0 := by
  simp [roundDouble]

/-- A number is a fixed point of `roundDouble` when it is an integer multiple
of the unit in the last place of its binade. -/
theorem roundDouble_of_int_ulp {x : ℚ} (m : ℤ)
    (h : x / 2 ^ (Int.log 2 |x| - 52) = (m : ℚ)) : roundDouble x = x := by
  unfold roundDouble
  split_ifs with hx
  · exact hx.symm
  · simp only
    rw [h, roundHalfEven_intCast, ← h]
    have hp : (2 : ℚ) ^ (Int.log 2 |x| - 52) ≠ 0 := by positivity
    field_simp

/-- Every natural number below `2 ^ 53` is a double. -/
theorem roundDouble_natCast {n : Nat} (h : n < 2 ^ 53) : roundDouble (n : ℚ) = n := by
  rcases Nat.eq_zero_or_pos n with h0 | hpos
  · subst h0
    simp [roundDouble]
  · have hlog : Nat.log 2 n < 53 := Nat.log_lt_of_lt_pow (by omega) h
    apply roundDouble_of_int_ulp (((n * 2 ^ (52 - Nat.log 2 n) : Nat) : ℤ))
    have habs : |(n : ℚ)| = (n : ℚ) := abs_of_nonneg (by positivity)
    rw [habs, Int.log_natCast]
    have he : ((Nat.log 2 n : ℤ) - 52) = -((52 - Nat.log 2 n : Nat) : ℤ) := by omega
    rw [he, zpow_neg, zpow_natCast]
    push_cast
    field_simp

theorem toDouble_of_lt {n : Nat} (h : n < 2 ^ 53) : toDouble n = n :=
  roundDouble_natCast h

theorem roundDouble_nonneg {x : ℚ} (hx : 0 ≤ x) : 0 ≤ roundDouble x := by
  unfold roundDouble
  split_ifs with h0
  · exact le_refl 0
  · simp only
    have hu : (0 : ℚ) < 2 ^ (Int.log 2 |x| - 52) := by positivity
    have hq : (0 : ℚ) ≤ x / 2 ^ (Int.log 2 |x| - 52) := div_nonneg hx hu.le
    have hf : 0 ≤ ⌊x / (2 : ℚ) ^ (Int.log 2 |x| - 52)⌋ := Int.floor_nonneg.mpr hq
    have hr : 0 ≤ roundHalfEven (x / 2 ^ (Int.log 2 |x| - 52)) :=
      le_trans hf (floor_le_roundHalfEven _)
    have hr' : (0 : ℚ) ≤ (roundHalfEven (x / 2 ^ (Int.log 2 |x| - 52)) : ℚ) := by
      exact_mod_cast hr
    exact mul_nonneg hr' hu.le

theorem roundDouble_pos {x : ℚ} (hx : 0 < x) : 0 < roundDouble x := by
  unfold roundDouble
  rw [if_neg hx.ne']
  simp only
  have habs : |x| = x := abs_of_pos hx
  rw [habs]
  have hu : (0 : ℚ) < 2 ^ (Int.log 2 x - 52) := by positivity
  have hlog : (2 : ℚ) ^ Int.log 2 x ≤ x := by
    have := Int.zpow_log_le_self (b := 2) (by norm_num) hx
    exact_mod_cast this
  have hq : (1 : ℚ) ≤ x / 2 ^ (Int.log 2 x - 52) := by
    rw [le_div_iff₀ hu, one_mul]
    refine le_trans ?_ hlog
    exact zpow_le_zpow_right₀ (by norm_num) (by omega)
  have hf : 1 ≤ ⌊x / (2 : ℚ) ^ (Int.log 2 x - 52)⌋ := Int.le_floor.mpr (by exact_mod_cast hq)
  have hr : 1 ≤ roundHalfEven (x / 2 ^ (Int.log 2 x - 52)) :=
    le_trans hf (floor_le_roundHalfEven _)
  have hr' : (0 : ℚ) < (roundHalfEven (x / 2 ^ (Int.log 2 x - 52)) : ℚ) := by
    have : (1 : ℚ) ≤ (roundHalfEven (x / 2 ^ (Int.log 2 x - 52)) : ℚ) := by exact_mod_cast hr
    linarith
  exact mul_pos hr' hu

theorem roundHalfEven_le_floor_add_one (q : ℚ) : roundHalfEven q ≤ ⌊q⌋ + 1 := by
  unfold roundHalfEven
  simp only
  split_ifs <;> omega

theorem roundDouble_nonpos {x : ℚ} (hx : x ≤ 0) : roundDouble x ≤ 0 := by
  unfold roundDouble
  split_ifs with h0
  · exact le_refl 0
  · simp only
    have hlt : x < 0 := lt_of_le_of_ne hx h0
    have hu : (0 : ℚ) < 2 ^ (Int.log 2 |x| - 52) := by positivity
    have hq : x / 2 ^ (Int.log 2 |x| - 52) < 0 := div_neg_of_neg_of_pos hlt hu
    have hf : ⌊x / (2 : ℚ) ^ (Int.log 2 |x| - 52)⌋ < 0 := Int.floor_lt.mpr (by exact_mod_cast hq)
    have hr : roundHalfEven (x / 2 ^ (Int.log 2 |x| - 52)) ≤ 0 :=
      le_trans (roundHalfEven_le_floor_add_one _) (by omega)
    have hr' : (roundHalfEven (x / 2 ^ (Int.log 2 |x| - 52)) : ℚ) ≤ 0 := by exact_mod_cast hr
    exact mul_nonpos_of_nonpos_of_nonneg hr' hu.le

theorem roundDouble_nonpos_iff {x : ℚ} : roundDouble x ≤ 0 ↔ x ≤ 0 := by
  constructor
  · intro h
    by_contra hx
    exact absurd h (not_le.mpr (roundDouble_pos (not_le.mp hx)))
  · exact roundDouble_nonpos

theorem roundHalfEven_le_of_le_intCast {q : ℚ} {m : ℤ} (h : q ≤ (m : ℚ)) :
    roundHalfEven q ≤ m := by
  rcases eq_or_lt_of_le h with heq | hlt
  · rw [heq, roundHalfEven_intCast]
  · have hf : ⌊q⌋ < m := Int.floor_lt.mpr hlt
    have := roundHalfEven_le_floor_add_one q
    omega

/-- Rounding does not cross a double: a number that is at most the double
`m * 2 ^ s` (with `m < 2 ^ 53`) rounds to at most `m * 2 ^ s`. -/
theorem roundDouble_le_of_le {x : ℚ} (m : Nat) (s : ℤ) (hm : m < 2 ^ 53)
    (hx : x ≤ (m : ℚ) * 2 ^ s) : roundDouble x ≤ (m : ℚ) * 2 ^ s := by
  have hc0 : (0 : ℚ) ≤ (m : ℚ) * 2 ^ s := by positivity
  rcases le_or_lt x 0 with hneg | hpos
  · exact le_trans (roundDouble_nonpos hneg) hc0
  · have hcpos : (0 : ℚ) < (m : ℚ) * 2 ^ s := lt_of_lt_of_le hpos hx
    have hlogc : Int.log 2 ((m : ℚ) * 2 ^ s) < s + 53 := by
      apply (Int.lt_zpow_iff_log_lt (by norm_num) hcpos).mp
      have h1 : ((m : ℚ)) < 2 ^ (53 : ℤ) := by
        have h0 : (m : ℚ) < ((2 ^ 53 : Nat) : ℚ) := by exact_mod_cast hm
        have h53 : ((2 ^ 53 : Nat) : ℚ) = 2 ^ (53 : ℤ) := by norm_num
        rw [h53] at h0
        exact h0
      have h2 : (m : ℚ) * 2 ^ s < 2 ^ (53 : ℤ) * 2 ^ s :=
        mul_lt_mul_of_pos_right h1 (by positivity)
      have h3 : (2 : ℚ) ^ (53 : ℤ) * 2 ^ s = 2 ^ (s + 53) := by
        rw [← zpow_add₀ (by norm_num : (2 : ℚ) ≠ 0)]
        congr 1
        omega
      rw [h3] at h2
      exact_mod_cast h2
    have hloge : Int.log 2 x ≤ Int.log 2 ((m : ℚ) * 2 ^ s) := Int.log_mono_right hpos hx
    unfold roundDouble
    rw [if_neg hpos.ne']
    simp only
    rw [abs_of_pos hpos]
    have hu : (0 : ℚ) < 2 ^ (Int.log 2 x - 52) := by positivity
    obtain ⟨k, hk⟩ : ∃ k : Nat, (k : ℤ) = s - (Int.log 2 x - 52) := ⟨(s - (Int.log 2 x - 52)).toNat, by omega⟩
    have hcu : (m : ℚ) * 2 ^ s = ((m * 2 ^ k : Nat) : ℤ) * (2 : ℚ) ^ (Int.log 2 x - 52) := by
      push_cast
      rw [mul_assoc, ← zpow_natCast, ← zpow_add₀ (by norm_num : (2 : ℚ) ≠ 0), hk]
      congr 2
      omega
    have hq : x / 2 ^ (Int.log 2 x - 52) ≤ (((m * 2 ^ k : Nat) : ℤ) : ℚ) := by
      rw [div_le_iff₀ hu, ← hcu]
      exact hx
    have hr := roundHalfEven_le_of_le_intCast hq
    rw [hcu]
    exact mul_le_mul_of_nonneg_right (by exact_mod_cast hr) hu.le

theorem roundDouble_le_one {x : ℚ} (hx : x ≤ 1) : roundDouble x ≤ 1 := by
  have := roundDouble_le_of_le (x := x) 1 0 (by norm_num) (by simpa using hx)
  simpa using this

theorem roundDouble_le_hundred {x : ℚ} (hx : x ≤ 100) : roundDouble x ≤ 100 := by
  have := roundDouble_le_of_le (x := x) 100 0 (by norm_num) (by simpa using hx)
  simpa using this

/-- The elapsed time of `getNetworkUsage` is positive. -/
theorem elapsedTime_pos (current_time prev_net_time : Int) :
    0 < elapsedTime current_time prev_net_time := by
  unfold elapsedTime
  simp only
  split_ifs with h
  · norm_num
  · exact not_le.mp h

/-- The elapsed time of `getNetworkUsage` in terms of the whole-second
difference of the two times. -/
theorem elapsedTime_eq (current_time prev_net_time : Int) :
    elapsedTime current_time prev_net_time =
      if current_time - prev_net_time ≤ 0 then 1 else difftime current_time prev_net_time := by
  unfold elapsedTime
  simp only
  have h : difftime current_time prev_net_time ≤ 0 ↔ current_time - prev_net_time ≤ 0 := by
    unfold difftime
    rw [roundDouble_nonpos_iff]
    exact_mod_cast Iff.rfl
  by_cases hc : current_time - prev_net_time ≤ 0
  · rw [if_pos hc, if_pos (h.mpr hc)]
  · rw [if_neg hc, if_neg (fun hd => hc (h.mp hd))]

/-- Below `2 ^ 53` seconds `difftime` is the exact difference. -/
theorem difftime_exact {time1 time0 : Int} (h0 : 0 ≤ time1 - time0)
    (h1 : time1 - time0 < 2 ^ 53) : difftime time1 time0 = ((time1 - time0 : Int) : ℚ) := by
  unfold difftime
  obtain ⟨n, hn⟩ := Int.eq_ofNat_of_zero_le h0
  rw [hn]
  have hlt : n < 2 ^ 53 := by
    rw [hn] at h1
    exact_mod_cast h1
  exact_mod_cast roundDouble_natCast hlt

/-! ## Lemmas on maps -/

theorem StdMap.find_assign_self {V : Type} (m : StdMap V) (k : String) (v : V) :
    StdMap.find (StdMap.assign m k v) k = some v := by
  induction m with
  | nil => simp [StdMap.assign, StdMap.find]
  | cons e rest ih =>
    obtain ⟨k0, v0⟩ := e
    unfold StdMap.assign
    split_ifs with h1 h2
    · simp [StdMap.find]
    · simp [StdMap.find]
    · have hne : k0 ≠ k := fun h => h2 h.symm
      simp [StdMap.find, hne, ih]

theorem StdMap.find_assign_of_ne {V : Type} (m : StdMap V) {k k' : String} (v : V)
    (hne : k' ≠ k) : StdMap.find (StdMap.assign m k v) k' = StdMap.find m k' := by
  induction m with
  | nil => simp [StdMap.assign, StdMap.find, hne.symm]
  | cons e rest ih =>
    obtain ⟨k0, v0⟩ := e
    unfold StdMap.assign
    split_ifs with h1 h2
    · simp [StdMap.find, hne.symm]
    · subst h2
      simp [StdMap.find, hne.symm]
    · by_cases hk : k0 = k'
      · simp [StdMap.find, hk]
      · simp [StdMap.find, hk, ih]

theorem StdMap.index_of_find {V : Type} {m : StdMap V} {k : String} {v : V} (dflt : V)
    (h : StdMap.find m k = some v) : StdMap.index m k dflt = (v, m) := by
  unfold StdMap.index
  rw [h]

theorem StdMap.mem_keys_iff {V : Type} (m : StdMap V) (k : String) :
    k ∈ StdMap.keys m ↔ (StdMap.find m k).isSome = true := by
  induction m with
  | nil => simp [StdMap.keys, StdMap.find]
  | cons e rest ih =>
    obtain ⟨k0, v0⟩ := e
    by_cases hk : k0 = k
    · simp [StdMap.keys, StdMap.find, hk]
    · have hk' : k ≠ k0 := fun h => hk h.symm
      have ih' : k ∈ List.map Prod.fst rest ↔ (StdMap.find rest k).isSome = true := ih
      simp only [StdMap.keys, List.map_cons, List.mem_cons, StdMap.find, if_neg hk]
      rw [ih']
      simp [hk']

theorem StdMap.find_of_not_mem_keys {V : Type} (m : StdMap V) (k : String)
    (h : k ∉ StdMap.keys m) : StdMap.find m k = none := by
  rw [StdMap.mem_keys_iff] at h
  simpa using h

theorem StdMap.mem_keys_assign {V : Type} (m : StdMap V) (k k' : String) (v : V) :
    k' ∈ StdMap.keys (StdMap.assign m k v) ↔ k' = k ∨ k' ∈ StdMap.keys m := by
  rw [StdMap.mem_keys_iff, StdMap.mem_keys_iff]
  by_cases h : k' = k
  · subst h
    simp [StdMap.find_assign_self]
  · rw [StdMap.find_assign_of_ne m v h]
    simp [h]

/-- Assignment keeps the keys of a map in increasing order. -/
theorem StdMap.assign_sorted {V : Type} (m : StdMap V) (k : String) (v : V)
    (h : (StdMap.keys m).Pairwise (· < ·)) :
    (StdMap.keys (StdMap.assign m k v)).Pairwise (· < ·) := by
  induction m with
  | nil => simp [StdMap.assign, StdMap.keys]
  | cons e rest ih =>
    obtain ⟨k0, v0⟩ := e
    have h' : (∀ a ∈ StdMap.keys rest, k0 < a) ∧ (StdMap.keys rest).Pairwise (· < ·) := by
      simpa [StdMap.keys] using h
    unfold StdMap.assign
    split_ifs with h1 h2
    · have hk : ∀ a ∈ StdMap.keys ((k0, v0) :: rest), k < a := by
        intro a ha
        have ha' : a = k0 ∨ a ∈ StdMap.keys rest := by simpa [StdMap.keys] using ha
        rcases ha' with rfl | ha'
        · exact h1
        · exact lt_trans h1 (h'.1 a ha')
      exact List.pairwise_cons.mpr ⟨hk, h⟩
    · subst h2
      exact List.pairwise_cons.mpr ⟨h'.1, h'.2⟩
    · have hlt : k0 < k := lt_of_le_of_ne (not_lt.mp h1) (fun hh => h2 hh.symm)
      have hk : ∀ a ∈ StdMap.keys (StdMap.assign rest k v), k0 < a := by
        intro a ha
        rcases (StdMap.mem_keys_assign rest k a v).mp ha with rfl | ha'
        · exact hlt
        · exact h'.1 a ha'
      exact List.pairwise_cons.mpr ⟨hk, ih h'.2⟩

theorem StdMap.index_sorted {V : Type} (m : StdMap V) (k : String) (dflt : V)
    (h : (StdMap.keys m).Pairwise (· < ·)) :
    (StdMap.keys (StdMap.index m k dflt).2).Pairwise (· < ·) := by
  unfold StdMap.index
  cases hf : StdMap.find m k with
  | none => exact StdMap.assign_sorted m k dflt h
  | some v => exact h

theorem updateNetworkInfoLoop_sorted (records : List IfAddrs) :
    ∀ info : StdMap NetworkInfo, (StdMap.keys info).Pairwise (· < ·) →
      (StdMap.keys (updateNetworkInfoLoop records info)).Pairwise (· < ·) := by
  induction records with
  | nil =>
    intro info h
    exact h
  | cons ifa rest ih =>
    intro info h
    unfold updateNetworkInfoLoop
    split
    · split_ifs
      · exact ih info h
      · apply ih
        apply StdMap.assign_sorted
        apply StdMap.index_sorted
        apply StdMap.assign_sorted
        apply StdMap.index_sorted
        exact h
      · exact ih info h
    · exact ih info h

/-- The map `updateNetworkInfo` builds has its keys in increasing order, so
every interface name occurs once. -/
theorem updateNetworkInfo_sorted (ifaddr : Option (List IfAddrs)) :
    (StdMap.keys (updateNetworkInfo ifaddr)).Pairwise (· < ·) := by
  unfold updateNetworkInfo
  cases ifaddr with
  | none => simp [StdMap.keys]
  | some records => exact updateNetworkInfoLoop_sorted records [] (by simp [StdMap.keys])

theorem updateNetworkInfo_nodup (ifaddr : Option (List IfAddrs)) :
    (StdMap.keys (updateNetworkInfo ifaddr)).Nodup :=
  (updateNetworkInfo_sorted ifaddr).imp (fun h => ne_of_lt h)

/-! ## Lemmas on the loop of `getNetworkUsage` -/

/-- The loop leaves `prev_net_info` as it was: no access through `[]` inserts
an entry. -/
theorem getNetworkUsageLoop_fst (time_diff : ℚ) (cur : List (String × NetworkInfo))
    (prev_net_info : StdMap NetworkInfo) :
    ∀ net_usage, (getNetworkUsageLoop time_diff cur prev_net_info net_usage).1 = prev_net_info := by
  induction cur with
  | nil =>
    intro net_usage
    rfl
  | cons e rest ih =>
    intro net_usage
    obtain ⟨k0, c0⟩ := e
    unfold getNetworkUsageLoop
    cases hf : StdMap.find prev_net_info k0 with
    | none => simpa using ih net_usage
    | some p =>
      rw [StdMap.index_of_find _ hf]
      simpa using ih _

theorem getNetworkUsageLoop_find_of_not_mem (time_diff : ℚ) (cur : List (String × NetworkInfo))
    (prev_net_info : StdMap NetworkInfo) (k : String) (hk : k ∉ StdMap.keys cur) :
    ∀ net_usage, StdMap.find (getNetworkUsageLoop time_diff cur prev_net_info net_usage).2 k
      = StdMap.find net_usage k := by
  induction cur with
  | nil =>
    intro net_usage
    rfl
  | cons e rest ih =>
    intro net_usage
    obtain ⟨k0, c0⟩ := e
    have hk' : k ≠ k0 ∧ k ∉ StdMap.keys rest := by simpa [StdMap.keys] using hk
    unfold getNetworkUsageLoop
    cases hf : StdMap.find prev_net_info k0 with
    | none => simpa using ih hk'.2 net_usage
    | some p =>
      rw [StdMap.index_of_find _ hf]
      simp only [Option.isSome_some, if_true]
      rw [ih hk'.2, StdMap.find_assign_of_ne _ _ hk'.1]

/-- The entry the loop writes for an interface present in both maps. -/
theorem getNetworkUsageLoop_find (time_diff : ℚ) (cur : List (String × NetworkInfo))
    (prev_net_info : StdMap NetworkInfo) (k : String) (p c : NetworkInfo)
    (hnd : (StdMap.keys cur).Nodup) (hc : StdMap.find cur k = some c)
    (hp : StdMap.find prev_net_info k = some p) :
    ∀ net_usage, StdMap.find (getNetworkUsageLoop time_diff cur prev_net_info net_usage).2 k
      = some (fdiv (toDouble (subU64 c.bytes_in p.bytes_in)) time_diff,
              fdiv (toDouble (subU64 c.bytes_out p.bytes_out)) time_diff) := by
  induction cur with
  | nil => simp [StdMap.find] at hc
  | cons e rest ih =>
    intro net_usage
    obtain ⟨k0, c0⟩ := e
    have hnd' : k0 ∉ StdMap.keys rest ∧ (StdMap.keys rest).Nodup := by
      simpa [StdMap.keys] using hnd
    unfold getNetworkUsageLoop
    by_cases hk : k0 = k
    · subst hk
      have hc0 : c0 = c := by simpa [StdMap.find] using hc
      subst hc0
      rw [StdMap.index_of_find _ hp]
      simp only [hp, Option.isSome_some, if_true]
      rw [getNetworkUsageLoop_find_of_not_mem _ _ _ _ hnd'.1, StdMap.find_assign_self]
    · have hc' : StdMap.find rest k = some c := by simpa [StdMap.find, hk] using hc
      cases hf : StdMap.find prev_net_info k0 with
      | none => simpa using ih hnd'.2 hc' net_usage
      | some p0 =>
        rw [StdMap.index_of_find _ hf]
        simp only [Option.isSome_some, if_true]
        exact ih hnd'.2 hc' _

/-- The keys the loop adds to `net_usage` are the keys of `current_net_info`
that `prev_net_info` has as well. -/
theorem getNetworkUsageLoop_mem_keys (time_diff : ℚ) (cur : List (String × NetworkInfo))
    (prev_net_info : StdMap NetworkInfo) (k : String) :
    ∀ net_usage, k ∈ StdMap.keys (getNetworkUsageLoop time_diff cur prev_net_info net_usage).2
      ↔ k ∈ StdMap.keys net_usage ∨ (k ∈ StdMap.keys cur ∧ k ∈ StdMap.keys prev_net_info) := by
  induction cur with
  | nil =>
    intro net_usage
    simp [getNetworkUsageLoop, StdMap.keys]
  | cons e rest ih =>
    intro net_usage
    obtain ⟨k0, c0⟩ := e
    have hcons : k ∈ StdMap.keys ((k0, c0) :: rest) ↔ k = k0 ∨ k ∈ StdMap.keys rest := by
      simp [StdMap.keys]
    unfold getNetworkUsageLoop
    cases hf : StdMap.find prev_net_info k0 with
    | none =>
      have hno : k0 ∉ StdMap.keys prev_net_info := by
        rw [StdMap.mem_keys_iff, hf]
        simp
      simp only [Option.isSome_none, Bool.false_eq_true, if_false]
      rw [ih, hcons]
      constructor
      · rintro (h | ⟨h1, h2⟩)
        · exact Or.inl h
        · exact Or.inr ⟨Or.inr h1, h2⟩
      · rintro (h | ⟨h1 | h1, h2⟩)
        · exact Or.inl h
        · subst h1
          exact absurd h2 hno
        · exact Or.inr ⟨h1, h2⟩
    | some p =>
      have hyes : k0 ∈ StdMap.keys prev_net_info := by
        rw [StdMap.mem_keys_iff, hf]
        simp
      rw [StdMap.index_of_find _ hf]
      simp only [Option.isSome_some, if_true]
      rw [ih, hcons, StdMap.mem_keys_assign]
      constructor
      · rintro ((h | h) | ⟨h1, h2⟩)
        · subst h
          exact Or.inr ⟨Or.inl rfl, hyes⟩
        · exact Or.inl h
        · exact Or.inr ⟨Or.inr h1, h2⟩
      · rintro (h | ⟨h1 | h1, h2⟩)
        · exact Or.inl (Or.inr h)
        · exact Or.inl (Or.inl h1)
        · exact Or.inr ⟨h1, h2⟩

/-- The entry of `getNetworkUsage` for an interface present in both maps, in
terms of the 64-bit differences. -/
theorem getNetworkUsage_find (self : SystemMonitor) (ifaddr : Option (List IfAddrs))
    (current_time : Int) (k : String) (p c : NetworkInfo)
    (hp : StdMap.find self.prev_net_info k = some p)
    (hc : StdMap.find (updateNetworkInfo ifaddr) k = some c) :
    StdMap.find (getNetworkUsage self ifaddr current_time).1 k
      = some (fdiv (toDouble (subU64 c.bytes_in p.bytes_in))
                (elapsedTime current_time self.prev_net_time),
              fdiv (toDouble (subU64 c.bytes_out p.bytes_out))
                (elapsedTime current_time self.prev_net_time)) := by
  unfold getNetworkUsage
  simp only
  exact getNetworkUsageLoop_find _ _ _ k p c (updateNetworkInfo_nodup ifaddr) hc hp []

/-! ## CPU load -/

/-- The scenario of the specification: the samples `(100, 50, 800, 0)` and
`(120, 60, 820, 0)` give a load of `60`. -/
theorem calculateCPULoad_scenario :
    calculateCPULoad ⟨100, 50, 800, 0⟩ ⟨120, 60, 820, 0⟩ = 60 := by
  have h : calculateCPULoad ⟨100, 50, 800, 0⟩ ⟨120, 60, 820, 0⟩
      = fmul 100 (fsub 1 (fdiv (toDouble 20) (toDouble 50))) := by
    norm_num [calculateCPULoad, addU64, subU64]
  have e1 : toDouble 20 = 20 := by
    rw [toDouble_of_lt (by norm_num)]
    norm_num
  have e2 : toDouble 50 = 50 := by
    rw [toDouble_of_lt (by norm_num)]
    norm_num
  have e3 : fdiv 20 50 = 7205759403792794 * 2 ^ (-54 : ℤ) := by
    unfold fdiv
    rw [roundDouble_eval (-2) 7205759403792794] <;> norm_num [abs_of_pos]
  have e4 : fsub 1 (7205759403792794 * 2 ^ (-54 : ℤ)) = 5404319552844595 * 2 ^ (-53 : ℤ) := by
    unfold fsub
    rw [roundDouble_eval (-1) 5404319552844595] <;> norm_num [abs_of_pos]
  have e5 : fmul 100 (5404319552844595 * 2 ^ (-53 : ℤ)) = 60 := by
    unfold fmul
    rw [roundDouble_eval 5 (60 * 2 ^ 47)] <;> norm_num [abs_of_pos]
  rw [h, e1, e2, e3, e4, e5]

/-- Two equal samples give a load of `0`: the total difference is `0`. -/
theorem calculateCPULoad_self (c : CPUInfo) : calculateCPULoad c c = 0 := by
  have h : ∀ a : Nat, subU64 a a = 0 := by
    intro a
    unfold subU64
    norm_num
    omega
  simp [calculateCPULoad, h]

/-- C1. When no counter of `current` is below the counter of `prev` and neither
sum of four counters overflows 64 bits, `calculateCPULoad` returns `0` for a
total difference of `0` and otherwise `100 * (1 - idle_diff / total_diff)`,
evaluated in double arithmetic on the mathematical differences (the natural
number subtractions below do not truncate under the hypotheses). The samples
`(100, 50, 800, 0)` and `(120, 60, 820, 0)` give `60`. -/
theorem calculateCPULoad_formula :
    (∀ prev current : CPUInfo,
      prev.user ≤ current.user → prev.system ≤ current.system →
      prev.idle ≤ current.idle → prev.nice ≤ current.nice →
      prev.user + prev.system + prev.idle + prev.nice < 2 ^ 64 →
      current.user + current.system + current.idle + current.nice < 2 ^ 64 →
      calculateCPULoad prev current =
        if (current.user + current.system + current.idle + current.nice)
            - (prev.user + prev.system + prev.idle + prev.nice) = 0 then 0
        else fmul 100 (fsub 1 (fdiv (toDouble (current.idle - prev.idle))
          (toDouble ((current.user + current.system + current.idle + current.nice)
            - (prev.user + prev.system + prev.idle + prev.nice)))))) ∧
    calculateCPULoad ⟨100, 50, 800, 0⟩ ⟨120, 60, 820, 0⟩ = 60 := by
  have key : ∀ prev current : CPUInfo,
      prev.user ≤ current.user → prev.system ≤ current.system →
      prev.idle ≤ current.idle → prev.nice ≤ current.nice →
      prev.user + prev.system + prev.idle + prev.nice < 2 ^ 64 →
      current.user + current.system + current.idle + current.nice < 2 ^ 64 →
      calculateCPULoad prev current =
        if (current.user + current.system + current.idle + current.nice)
            - (prev.user + prev.system + prev.idle + prev.nice) = 0 then 0
        else fmul 100 (fsub 1 (fdiv (toDouble (current.idle - prev.idle))
          (toDouble ((current.user + current.system + current.idle + current.nice)
            - (prev.user + prev.system + prev.idle + prev.nice))))) := by
    intro prev current hu hs hi hn hp hc
    unfold calculateCPULoad
    have p1 : addU64 prev.user prev.system = prev.user + prev.system :=
      addU64_eq_add (by omega)
    have p2 : addU64 (prev.user + prev.system) prev.idle = prev.user + prev.system + prev.idle :=
      addU64_eq_add (by omega)
    have p3 : addU64 (prev.user + prev.system + prev.idle) prev.nice
        = prev.user + prev.system + prev.idle + prev.nice := addU64_eq_add hp
    have c1 : addU64 current.user current.system = current.user + current.system :=
      addU64_eq_add (by omega)
    have c2 : addU64 (current.user + current.system) current.idle
        = current.user + current.system + current.idle := addU64_eq_add (by omega)
    have c3 : addU64 (current.user + current.system + current.idle) current.nice
        = current.user + current.system + current.idle + current.nice := addU64_eq_add hc
    have d1 : subU64 (current.user + current.system + current.idle + current.nice)
        (prev.user + prev.system + prev.idle + prev.nice)
        = (current.user + current.system + current.idle + current.nice)
          - (prev.user + prev.system + prev.idle + prev.nice) :=
      subU64_eq_sub (by omega) hc
    have d2 : subU64 current.idle prev.idle = current.idle - prev.idle :=
      subU64_eq_sub hi (by omega)
    simp only [p1, p2, p3, c1, c2, c3, d1, d2]
  exact ⟨key, calculateCPULoad_scenario⟩

/-- Witness of C1 at the samples `(100, 50, 800, 0)` and `(120, 60, 820, 0)`. -/
theorem calculateCPULoad_formula_witness :
    calculateCPULoad ⟨100, 50, 800, 0⟩ ⟨120, 60, 820, 0⟩ =
      fmul 100 (fsub 1 (fdiv (toDouble 20) (toDouble 50))) := by
  have h := calculateCPULoad_formula.1 ⟨100, 50, 800, 0⟩ ⟨120, 60, 820, 0⟩
    (by decide) (by decide) (by decide) (by decide) (by norm_num) (by norm_num)
  rw [h]
  norm_num

/-! ## Network usage -/

/-- C2. For an interface present in the stored map and in the current map,
`getNetworkUsage` reports in each direction whose counter did not decrease the
rate `(counter_cur - counter_prev) / elapsed` (in double arithmetic), where
`elapsed` is `1` when the whole-second difference of the current time and
`prev_net_time` is `≤ 0` and otherwise that difference as `difftime` returns
it (the exact difference below `2 ^ 53` seconds); the rate is `≥ 0`. A counter
going from `1000000` to `2000000` in `5` seconds gives `200000`. -/
theorem getNetworkUsage_rate :
    (∀ (self : SystemMonitor) (ifaddr : Option (List IfAddrs)) (current_time : Int)
        (interface : String) (prev current : NetworkInfo),
      StdMap.find self.prev_net_info interface = some prev →
      StdMap.find (updateNetworkInfo ifaddr) interface = some current →
      ∃ in_rate out_rate elapsed : ℚ,
        StdMap.find (getNetworkUsage self ifaddr current_time).1 interface
          = some (in_rate, out_rate) ∧
        elapsed = (if current_time - self.prev_net_time ≤ 0 then 1
          else difftime current_time self.prev_net_time) ∧
        (prev.bytes_in ≤ current.bytes_in → current.bytes_in < 2 ^ 64 →
          in_rate = fdiv (toDouble (current.bytes_in - prev.bytes_in)) elapsed ∧ 0 ≤ in_rate) ∧
        (prev.bytes_out ≤ current.bytes_out → current.bytes_out < 2 ^ 64 →
          out_rate = fdiv (toDouble (current.bytes_out - prev.bytes_out)) elapsed ∧
            0 ≤ out_rate)) ∧
    (∀ time1 time0 : Int, 0 ≤ time1 - time0 → time1 - time0 < 2 ^ 53 →
      difftime time1 time0 = ((time1 - time0 : Int) : ℚ)) ∧
    StdMap.find (getNetworkUsage ⟨[], [("en0", ⟨1000000, 0⟩)], 0⟩
      (some [⟨some "en0", some AF_LINK, 2000000, 0⟩]) 5).1 "en0" = some (200000, 0) := by
  refine ⟨?_, fun t1 t0 h0 h1 => difftime_exact h0 h1, ?_⟩
  · intro self ifaddr current_time interface prev current hp hc
    have hpos := elapsedTime_pos current_time self.prev_net_time
    refine ⟨_, _, elapsedTime current_time self.prev_net_time,
      getNetworkUsage_find self ifaddr current_time interface prev current hp hc,
      elapsedTime_eq _ _, ?_, ?_⟩
    · intro hle hlt
      rw [subU64_eq_sub hle hlt]
      refine ⟨rfl, ?_⟩
      exact roundDouble_nonneg (div_nonneg (roundDouble_nonneg (by positivity)) hpos.le)
    · intro hle hlt
      rw [subU64_eq_sub hle hlt]
      refine ⟨rfl, ?_⟩
      exact roundDouble_nonneg (div_nonneg (roundDouble_nonneg (by positivity)) hpos.le)
  · rw [getNetworkUsage_find _ _ _ "en0" ⟨1000000, 0⟩ ⟨2000000, 0⟩
      (by simp [StdMap.find])
      (by simp [updateNetworkInfo, updateNetworkInfoLoop, AF_LINK, StdMap.index, StdMap.find,
        StdMap.assign])]
    have e0 : elapsedTime 5 0 = 5 := by
      rw [elapsedTime_eq, if_neg (by norm_num), difftime_exact (by norm_num) (by norm_num)]
      norm_num
    have e1 : toDouble (subU64 2000000 1000000) = 1000000 := by
      rw [subU64_eq_sub (by norm_num) (by norm_num), toDouble_of_lt (by norm_num)]
      norm_num
    have e2 : toDouble (subU64 0 0) = 0 := by
      rw [subU64_eq_sub (by norm_num) (by norm_num), toDouble_of_lt (by norm_num)]
      norm_num
    have e3 : fdiv 1000000 5 = 200000 := by
      unfold fdiv
      have h := roundDouble_natCast (n := 200000) (by norm_num)
      norm_num at h ⊢
      exact h
    have e4 : fdiv 0 5 = 0 := by
      unfold fdiv
      norm_num [roundDouble_zero]
    simp only [e0, e1, e2, e3, e4]

/-- Witness of C2: an interface going from `1000000` to `2000000` bytes in. -/
theorem getNetworkUsage_rate_witness :
    ∃ in_rate out_rate elapsed : ℚ,
      StdMap.find (getNetworkUsage ⟨[], [("en0", ⟨1000000, 0⟩)], 0⟩
        (some [⟨some "en0", some AF_LINK, 2000000, 0⟩]) 5).1 "en0" = some (in_rate, out_rate) ∧
      elapsed = (if (5 : Int) - 0 ≤ 0 then 1 else difftime 5 0) ∧
      ((1000000 : Nat) ≤ 2000000 → (2000000 : Nat) < 2 ^ 64 →
        in_rate = fdiv (toDouble (2000000 - 1000000)) elapsed ∧ 0 ≤ in_rate) ∧
      ((0 : Nat) ≤ 0 → (0 : Nat) < 2 ^ 64 →
        out_rate = fdiv (toDouble (0 - 0)) elapsed ∧ 0 ≤ out_rate) :=
  getNetworkUsage_rate.1 ⟨[], [("en0", ⟨1000000, 0⟩)], 0⟩
    (some [⟨some "en0", some AF_LINK, 2000000, 0⟩]) 5 "en0" ⟨1000000, 0⟩ ⟨2000000, 0⟩
    (by simp [StdMap.find])
    (by simp [updateNetworkInfo, updateNetworkInfoLoop, AF_LINK, StdMap.index, StdMap.find,
      StdMap.assign])

/-- C3, as the code behaves. When the current counter of a direction is below
the stored one, the rate reported is not `0`: the 64-bit difference wraps to
`2 ^ 64 - (counter_prev - counter_cur)`, and the rate is that number divided
by the elapsed time, a positive value. -/
theorem getNetworkUsage_regression
    (self : SystemMonitor) (ifaddr : Option (List IfAddrs)) (current_time : Int)
    (interface : String) (prev current : NetworkInfo)
    (hp : StdMap.find self.prev_net_info interface = some prev)
    (hc : StdMap.find (updateNetworkInfo ifaddr) interface = some current) :
    ∃ in_rate out_rate elapsed : ℚ,
      StdMap.find (getNetworkUsage self ifaddr current_time).1 interface
        = some (in_rate, out_rate) ∧
      elapsed = (if current_time - self.prev_net_time ≤ 0 then 1
        else difftime current_time self.prev_net_time) ∧
      (current.bytes_in < prev.bytes_in → prev.bytes_in < 2 ^ 64 →
        in_rate = fdiv (toDouble (2 ^ 64 - (prev.bytes_in - current.bytes_in))) elapsed ∧
          0 < in_rate) ∧
      (current.bytes_out < prev.bytes_out → prev.bytes_out < 2 ^ 64 →
        out_rate = fdiv (toDouble (2 ^ 64 - (prev.bytes_out - current.bytes_out))) elapsed ∧
          0 < out_rate) := by
  have hpos := elapsedTime_pos current_time self.prev_net_time
  have hrate : ∀ a b : Nat, a < b → b < 2 ^ 64 →
      0 < fdiv (toDouble (2 ^ 64 - (b - a))) (elapsedTime current_time self.prev_net_time) := by
    intro a b hab hb
    have hn : 0 < 2 ^ 64 - (b - a) := by
      norm_num at hb ⊢
      omega
    have hq : (0 : ℚ) < ((2 ^ 64 - (b - a) : Nat) : ℚ) := by exact_mod_cast hn
    exact roundDouble_pos (div_pos (roundDouble_pos hq) hpos)
  refine ⟨_, _, elapsedTime current_time self.prev_net_time,
    getNetworkUsage_find self ifaddr current_time interface prev current hp hc,
    elapsedTime_eq _ _, ?_, ?_⟩
  · intro hlt hb
    rw [subU64_eq_wrap hlt hb]
    exact ⟨rfl, hrate _ _ hlt hb⟩
  · intro hlt hb
    rw [subU64_eq_wrap hlt hb]
    exact ⟨rfl, hrate _ _ hlt hb⟩

/-- Witness of the amended C3: a counter falling from `100` to `50`. -/
theorem getNetworkUsage_regression_witness :
    ∃ in_rate out_rate elapsed : ℚ,
      StdMap.find (getNetworkUsage ⟨[], [("en0", ⟨100, 100⟩)], 0⟩
        (some [⟨some "en0", some AF_LINK, 50, 50⟩]) 1).1 "en0" = some (in_rate, out_rate) ∧
      elapsed = (if (1 : Int) - 0 ≤ 0 then 1 else difftime 1 0) ∧
      ((50 : Nat) < 100 → (100 : Nat) < 2 ^ 64 →
        in_rate = fdiv (toDouble (2 ^ 64 - (100 - 50))) elapsed ∧ 0 < in_rate) ∧
      ((50 : Nat) < 100 → (100 : Nat) < 2 ^ 64 →
        out_rate = fdiv (toDouble (2 ^ 64 - (100 - 50))) elapsed ∧ 0 < out_rate) :=
  getNetworkUsage_regression ⟨[], [("en0", ⟨100, 100⟩)], 0⟩
    (some [⟨some "en0", some AF_LINK, 50, 50⟩]) 1 "en0" ⟨100, 100⟩ ⟨50, 50⟩
    (by simp [StdMap.find])
    (by simp [updateNetworkInfo, updateNetworkInfoLoop, AF_LINK, StdMap.index, StdMap.find,
      StdMap.assign])

/-- Counterexample to C3 as stated: the interface `en0` is in both maps, its
inbound counter falls from `100` to `50`, and one second later the inbound
rate reported is `2 ^ 64` bytes per second, not `0`. -/
theorem getNetworkUsage_regression_counterexample :
    StdMap.find (updateNetworkInfo (some [⟨some "en0", some AF_LINK, 50, 0⟩])) "en0"
      = some ⟨50, 0⟩ ∧
    StdMap.find (getNetworkUsage ⟨[], [("en0", ⟨100, 0⟩)], 0⟩
      (some [⟨some "en0", some AF_LINK, 50, 0⟩]) 1).1 "en0"
      = some (18446744073709551616, 0) ∧
    (18446744073709551616 : ℚ) ≠ 0 := by
  have hc : StdMap.find (updateNetworkInfo (some [⟨some "en0", some AF_LINK, 50, 0⟩])) "en0"
      = some ⟨50, 0⟩ := by
    simp [updateNetworkInfo, updateNetworkInfoLoop, AF_LINK, StdMap.index, StdMap.find,
      StdMap.assign]
  refine ⟨hc, ?_, by norm_num⟩
  rw [getNetworkUsage_find _ _ _ "en0" ⟨100, 0⟩ ⟨50, 0⟩ (by simp [StdMap.find]) hc]
  have e0 : elapsedTime 1 0 = 1 := by
    rw [elapsedTime_eq, if_neg (by norm_num), difftime_exact (by norm_num) (by norm_num)]
    norm_num
  have e1 : toDouble (subU64 50 100) = 18446744073709551616 := by
    rw [subU64_eq_wrap (by norm_num) (by norm_num)]
    unfold toDouble
    rw [roundDouble_eval 63 (2 ^ 53)] <;> norm_num [abs_of_pos]
  have e2 : toDouble (subU64 0 0) = 0 := by
    rw [subU64_eq_sub (by norm_num) (by norm_num), toDouble_of_lt (by norm_num)]
    norm_num
  have e3 : fdiv 18446744073709551616 1 = 18446744073709551616 := by
    unfold fdiv
    rw [roundDouble_eval 64 (2 ^ 52)] <;> norm_num [abs_of_pos]
  have e4 : fdiv 0 1 = 0 := by
    unfold fdiv
    norm_num [roundDouble_zero]
  simp only [e0, e1, e2, e3, e4]

/-- C10. The keys of the result of `getNetworkUsage` are the interface names
present in both the stored map and the current map, for every stored map and
every current map (first for the loop on an arbitrary current map, then for
the method); the loop leaves the stored map as it was, so no access inserts an
entry into it. -/
theorem getNetworkUsage_keys :
    (∀ (time_diff : ℚ) (current_net_info prev_net_info : StdMap NetworkInfo),
      (∀ k, k ∈ StdMap.keys (getNetworkUsageLoop time_diff current_net_info prev_net_info []).2
          ↔ k ∈ StdMap.keys prev_net_info ∧ k ∈ StdMap.keys current_net_info) ∧
      (getNetworkUsageLoop time_diff current_net_info prev_net_info []).1 = prev_net_info) ∧
    (∀ (self : SystemMonitor) (ifaddr : Option (List IfAddrs)) (current_time : Int) (k : String),
      k ∈ StdMap.keys (getNetworkUsage self ifaddr current_time).1
        ↔ k ∈ StdMap.keys self.prev_net_info ∧ k ∈ StdMap.keys (updateNetworkInfo ifaddr)) := by
  have hloop : ∀ (time_diff : ℚ) (cur prev : StdMap NetworkInfo) (k : String),
      k ∈ StdMap.keys (getNetworkUsageLoop time_diff cur prev []).2
        ↔ k ∈ StdMap.keys prev ∧ k ∈ StdMap.keys cur := by
    intro time_diff cur prev k
    rw [getNetworkUsageLoop_mem_keys]
    simp [StdMap.keys, and_comm]
  refine ⟨fun td cur prev => ⟨hloop td cur prev, getNetworkUsageLoop_fst td cur prev []⟩, ?_⟩
  intro self ifaddr current_time k
  unfold getNetworkUsage
  simp only
  exact hloop _ _ _ k

/-! ## CPU usage -/

theorem getElem?_append_length {α : Type} (l₁ : List α) (a : α) (l₂ : List α) :
    (l₁ ++ a :: l₂)[l₁.length]? = some a := by
  induction l₁ with
  | nil => simp
  | cons b l ih => simpa using ih

theorem set_append_length {α : Type} (l₁ : List α) (a b : α) (l₂ : List α) :
    (l₁ ++ a :: l₂).set l₁.length b = l₁ ++ b :: l₂ := by
  induction l₁ with
  | nil => rfl
  | cons c l ih => simp

/-- The loop of `getCPUUsage` when the stored vector has an entry for every
core still to visit: core by core the load against the stored sample is
written to `cpu_usage` and the sample replaces the stored one. -/
theorem getCPUUsageLoop_of_le (rest : List CPUInfo) :
    ∀ (done todo : List CPUInfo) (udone utodo : List ℚ),
      udone.length = done.length → rest.length ≤ todo.length → rest.length ≤ utodo.length →
      getCPUUsageLoop done.length rest (done ++ todo) (udone ++ utodo) =
        some (udone ++ List.zipWith calculateCPULoad todo rest ++ utodo.drop rest.length,
              done ++ rest ++ todo.drop rest.length) := by
  induction rest with
  | nil =>
    intro done todo udone utodo _ _ _
    simp [getCPUUsageLoop]
  | cons c r ih =>
    intro done todo udone utodo hlen h1 h2
    cases todo with
    | nil => simp at h1
    | cons p tp =>
      cases utodo with
      | nil => simp at h2
      | cons u tu =>
        unfold getCPUUsageLoop
        rw [getElem?_append_length]
        simp only
        rw [set_append_length]
        have hu : (udone ++ u :: tu).set done.length (calculateCPULoad p c)
            = udone ++ calculateCPULoad p c :: tu := by
          rw [← hlen]
          exact set_append_length _ _ _ _
        rw [hu]
        have e1 : done ++ c :: tp = (done ++ [c]) ++ tp := by simp
        have e2 : udone ++ calculateCPULoad p c :: tu = (udone ++ [calculateCPULoad p c]) ++ tu := by
          simp
        have e3 : done.length + 1 = (done ++ [c]).length := by simp
        rw [e1, e2, e3]
        rw [ih (done ++ [c]) tp (udone ++ [calculateCPULoad p c]) tu (by simp [hlen])
          (by simpa using h1) (by simpa using h2)]
        simp

/-- The loop of `getCPUUsage` when the snapshot has more cores than the stored
vector has entries: an access past the end of `prev_cpu_info`. -/
theorem getCPUUsageLoop_of_lt (rest : List CPUInfo) :
    ∀ (done todo : List CPUInfo) (usage : List ℚ), todo.length < rest.length →
      getCPUUsageLoop done.length rest (done ++ todo) usage = none := by
  induction rest with
  | nil =>
    intro done todo usage h
    simp at h
  | cons c r ih =>
    intro done todo usage h
    cases todo with
    | nil =>
      unfold getCPUUsageLoop
      simp
    | cons p tp =>
      unfold getCPUUsageLoop
      rw [getElem?_append_length]
      simp only
      rw [set_append_length]
      have e1 : done ++ c :: tp = (done ++ [c]) ++ tp := by simp
      have e3 : done.length + 1 = (done ++ [c]).length := by simp
      rw [e1, e3]
      exact ih (done ++ [c]) tp _ (by simpa using h)

/-- With at most as many cores in the snapshot as are stored, `getCPUUsage`
returns the loads against the stored samples and stores the snapshot. -/
theorem getCPUUsage_of_le (self : SystemMonitor) (info : List CPUInfo)
    (h : info.length ≤ self.prev_cpu_info.length) :
    getCPUUsage self (some info) =
      some (List.zipWith calculateCPULoad self.prev_cpu_info info,
        { self with prev_cpu_info := info ++ self.prev_cpu_info.drop info.length }) := by
  unfold getCPUUsage
  have := getCPUUsageLoop_of_le info [] self.prev_cpu_info [] (List.replicate info.length 0)
    rfl h (by simp)
  simp only [List.length_nil, List.nil_append] at this
  simp only [this]
  simp

/-- With more cores in the snapshot than are stored, `getCPUUsage` reads
`prev_cpu_info` past its end. -/
theorem getCPUUsage_of_lt (self : SystemMonitor) (info : List CPUInfo)
    (h : self.prev_cpu_info.length < info.length) :
    getCPUUsage self (some info) = none := by
  unfold getCPUUsage
  have := getCPUUsageLoop_of_lt info [] self.prev_cpu_info (List.replicate info.length 0) h
  simp only [List.length_nil, List.nil_append] at this
  simp only [this]

/-- C4, the code at the failing input. The constructor's snapshot fails, so
`prev_cpu_info` stays empty; the first successful snapshot, of one core, makes
`getCPUUsage` read `prev_cpu_info[0]`, which is past the end of the vector:
the core is not treated as a bootstrap. -/
theorem getCPUUsage_out_of_range :
    (init none none 0).prev_cpu_info = [] ∧
    getCPUUsage (init none none 0) (some [⟨120, 60, 820, 0⟩]) = none ∧
    getCPUUsage ⟨[⟨100, 50, 800, 0⟩], [], 0⟩ (some [⟨120, 60, 820, 0⟩, ⟨7, 7, 7, 0⟩]) = none := by
  refine ⟨rfl, ?_, ?_⟩
  · exact getCPUUsage_of_lt _ _ (by simp [init])
  · exact getCPUUsage_of_lt _ _ (by simp)

theorem getTotalCPUUsageLoop_eq_foldl (xs : List ℚ) :
    ∀ total, getTotalCPUUsageLoop xs total = xs.foldl fadd total := by
  induction xs with
  | nil =>
    intro total
    rfl
  | cons x rest ih =>
    intro total
    simp [getTotalCPUUsageLoop, ih]

/-- C5. `getTotalCPUUsage` returns the arithmetic mean of the per-core vector
`getCPUUsage` produces from the same state and snapshot, `0` when that vector
is empty, and leaves the state `getCPUUsage` leaves (where `getCPUUsage`
produces no vector, neither method returns). In particular, for a snapshot
with at most as many cores as are stored it returns the mean of the loads
against the stored samples, and for a failed snapshot it returns `0`. -/
theorem getTotalCPUUsage_mean :
    (∀ (self : SystemMonitor) (cpu_load_info : Option (List CPUInfo)),
      getTotalCPUUsage self cpu_load_info =
        (getCPUUsage self cpu_load_info).map (fun r => (arithmeticMean r.1, r.2))) ∧
    arithmeticMean [] = 0 ∧
    (∀ (self : SystemMonitor) (info : List CPUInfo),
      info.length ≤ self.prev_cpu_info.length →
      getCPUUsage self (some info) =
        some (List.zipWith calculateCPULoad self.prev_cpu_info info,
          { self with prev_cpu_info := info ++ self.prev_cpu_info.drop info.length }) ∧
      getTotalCPUUsage self (some info) =
        some (arithmeticMean (List.zipWith calculateCPULoad self.prev_cpu_info info),
          { self with prev_cpu_info := info ++ self.prev_cpu_info.drop info.length })) ∧
    (∀ self : SystemMonitor,
      getCPUUsage self none = some ([], self) ∧ getTotalCPUUsage self none = some (0, self)) := by
  have hmean : ∀ (self : SystemMonitor) (cpu_load_info : Option (List CPUInfo)),
      getTotalCPUUsage self cpu_load_info =
        (getCPUUsage self cpu_load_info).map (fun r => (arithmeticMean r.1, r.2)) := by
    intro self cpu_load_info
    unfold getTotalCPUUsage
    cases h : getCPUUsage self cpu_load_info with
    | none => rfl
    | some r =>
      obtain ⟨cpu_usage, self'⟩ := r
      cases cpu_usage with
      | nil => simp [arithmeticMean]
      | cons x rest => simp [arithmeticMean, getTotalCPUUsageLoop_eq_foldl]
  refine ⟨hmean, rfl, ?_, ?_⟩
  · intro self info hle
    refine ⟨getCPUUsage_of_le self info hle, ?_⟩
    rw [hmean, getCPUUsage_of_le self info hle]
    rfl
  · intro self
    refine ⟨rfl, ?_⟩
    rw [hmean]
    rfl

/-- Witness of C5: one core, the scenario samples. -/
theorem getTotalCPUUsage_mean_witness :
    getCPUUsage ⟨[⟨100, 50, 800, 0⟩], [], 0⟩ (some [⟨120, 60, 820, 0⟩]) =
      some (List.zipWith calculateCPULoad [⟨100, 50, 800, 0⟩] [⟨120, 60, 820, 0⟩],
        { (⟨[⟨100, 50, 800, 0⟩], [], 0⟩ : SystemMonitor) with
          prev_cpu_info := [⟨120, 60, 820, 0⟩] ++ List.drop 1 [⟨100, 50, 800, 0⟩] }) ∧
    getTotalCPUUsage ⟨[⟨100, 50, 800, 0⟩], [], 0⟩ (some [⟨120, 60, 820, 0⟩]) =
      some (arithmeticMean (List.zipWith calculateCPULoad [⟨100, 50, 800, 0⟩]
          [⟨120, 60, 820, 0⟩]),
        { (⟨[⟨100, 50, 800, 0⟩], [], 0⟩ : SystemMonitor) with
          prev_cpu_info := [⟨120, 60, 820, 0⟩] ++ List.drop 1 [⟨100, 50, 800, 0⟩] }) :=
  getTotalCPUUsage_mean.2.2.1 ⟨[⟨100, 50, 800, 0⟩], [], 0⟩ [⟨120, 60, 820, 0⟩] (by simp)

/-- The CPU section of the loop of `main` in terms of its two calls of
`getCPUUsage`. -/
theorem mainCPUSection_eq (monitor : SystemMonitor) (snapshot1 snapshot2 : Option (List CPUInfo)) :
    mainCPUSection monitor snapshot1 snapshot2 =
      match getCPUUsage monitor snapshot1 with
      | none => none
      | some (usage1, monitor1) =>
        match getCPUUsage monitor1 snapshot2 with
        | none => none
        | some (usage2, monitor2) => some ((arithmeticMean usage1, usage2), monitor2) := by
  unfold mainCPUSection getTotalCPUUsage
  cases getCPUUsage monitor snapshot1 with
  | none => rfl
  | some r =>
    obtain ⟨cpu_usage, monitor1⟩ := r
    cases cpu_usage with
    | nil => simp [arithmeticMean]
    | cons x rest => simp [arithmeticMean, getTotalCPUUsageLoop_eq_foldl]

/-- The CPU section of the loop of `main` when the stored vector and the two
snapshots have the same number of cores. -/
theorem mainCPUSection_of_length_eq (monitor : SystemMonitor) (snapshot1 snapshot2 : List CPUInfo)
    (h1 : snapshot1.length = monitor.prev_cpu_info.length)
    (h2 : snapshot2.length = monitor.prev_cpu_info.length) :
    mainCPUSection monitor (some snapshot1) (some snapshot2) =
      some ((arithmeticMean (List.zipWith calculateCPULoad monitor.prev_cpu_info snapshot1),
             List.zipWith calculateCPULoad snapshot1 snapshot2),
            { monitor with prev_cpu_info := snapshot2 }) := by
  have d1 : monitor.prev_cpu_info.drop snapshot1.length = [] :=
    List.drop_eq_nil_of_le (by omega)
  have d2 : snapshot1.drop snapshot2.length = [] := List.drop_eq_nil_of_le (by omega)
  rw [mainCPUSection_eq, getCPUUsage_of_le monitor snapshot1 h1.le]
  simp only [d1, List.append_nil]
  rw [getCPUUsage_of_le _ snapshot2 (by simp only; omega)]
  simp only [d2, List.append_nil]

/-- C6, the code at the failing input. One core with stored sample
`(100, 50, 800, 0)`; both calls of `host_processor_info` in the pass read
`(120, 60, 820, 0)`, no tick having elapsed between them. The total shown is
`60`, the load since the stored sample; the per-core value shown is `0`, the
load since the snapshot `getTotalCPUUsage` has just stored, and the mean of
the per-core values shown is `0`, not the total. -/
theorem mainCPUSection_total_not_mean :
    mainCPUSection ⟨[⟨100, 50, 800, 0⟩], [], 0⟩ (some [⟨120, 60, 820, 0⟩])
        (some [⟨120, 60, 820, 0⟩]) =
      some ((60, [0]), ⟨[⟨120, 60, 820, 0⟩], [], 0⟩) ∧
    arithmeticMean [0] = 0 ∧ (60 : ℚ) ≠ 0 := by
  have hmean60 : arithmeticMean [60] = 60 := by
    have a1 : fadd 0 60 = 60 := by
      unfold fadd
      have h := roundDouble_natCast (n := 60) (by norm_num)
      norm_num at h ⊢
      exact h
    have a2 : toDouble 1 = 1 := by
      rw [toDouble_of_lt (by norm_num)]
      norm_num
    have a3 : fdiv 60 1 = 60 := by
      unfold fdiv
      have h := roundDouble_natCast (n := 60) (by norm_num)
      norm_num at h ⊢
      exact h
    simp [arithmeticMean, a1, a2, a3]
  have hmean0 : arithmeticMean [0] = 0 := by
    have a1 : fadd 0 0 = 0 := by
      unfold fadd
      norm_num [roundDouble_zero]
    have a2 : toDouble 1 = 1 := by
      rw [toDouble_of_lt (by norm_num)]
      norm_num
    have a3 : fdiv 0 1 = 0 := by
      unfold fdiv
      norm_num [roundDouble_zero]
    simp [arithmeticMean, a1, a2, a3]
  refine ⟨?_, hmean0, by norm_num⟩
  rw [mainCPUSection_of_length_eq _ _ _ (by simp) (by simp)]
  show some ((arithmeticMean [calculateCPULoad ⟨100, 50, 800, 0⟩ ⟨120, 60, 820, 0⟩],
    [calculateCPULoad ⟨120, 60, 820, 0⟩ ⟨120, 60, 820, 0⟩]), _) = _
  rw [calculateCPULoad_scenario, calculateCPULoad_self, hmean60]

/-! ## Process ranking -/

theorem getTopProcesses_eq_take (sort : List ProcessInfo → List ProcessInfo)
    (processes : List ProcessInfo) (count : Nat) :
    getTopProcesses sort processes count = (sort processes).take count := by
  unfold getTopProcesses
  simp only
  split_ifs with h
  · rfl
  · exact (List.take_of_length_le (not_lt.mp h)).symm

theorem cpuGreater_eq_false_iff (a b : ProcessInfo) :
    cpuGreater a b = false ↔ a.cpu_percent ≤ b.cpu_percent := by
  simp [cpuGreater]

/-- Insertion sort is an implementation of `std::sort`. -/
theorem isStdSort_insertionSortByCpu : IsStdSort insertionSortByCpu := by
  intro l
  refine ⟨List.perm_insertionSort _ l, ?_⟩
  have htot : IsTotal ProcessInfo (fun a b => b.cpu_percent ≤ a.cpu_percent) :=
    ⟨fun a b => le_total b.cpu_percent a.cpu_percent⟩
  have htrans : IsTrans ProcessInfo (fun a b => b.cpu_percent ≤ a.cpu_percent) :=
    ⟨fun a b c hab hbc => le_trans hbc hab⟩
  have hs := List.sorted_insertionSort (fun a b : ProcessInfo => b.cpu_percent ≤ a.cpu_percent) l
  exact List.Pairwise.imp (fun {a b} h => (cpuGreater_eq_false_iff b a).mpr h) hs

/-- C7. With any implementation of `std::sort`, the ranking step of
`getTopProcesses` returns `min(count, n)` processes in non-increasing order of
`cpu_percent`; they are a sub-multiset of the input, and every process of the
input that is left out (the processes `leftOut` that make up the input together
with the result) has a `cpu_percent` at most that of every process returned. -/
theorem getTopProcesses_ranking (sort : List ProcessInfo → List ProcessInfo)
    (hsort : IsStdSort sort) (processes : List ProcessInfo) (count : Nat) :
    (getTopProcesses sort processes count).length = min count processes.length ∧
    (getTopProcesses sort processes count).Pairwise
      (fun a b => b.cpu_percent ≤ a.cpu_percent) ∧
    (getTopProcesses sort processes count).Subperm processes ∧
    (∃ leftOut : List ProcessInfo,
      (getTopProcesses sort processes count ++ leftOut).Perm processes) ∧
    (∀ leftOut : List ProcessInfo,
      (getTopProcesses sort processes count ++ leftOut).Perm processes →
      ∀ p ∈ leftOut, ∀ q ∈ getTopProcesses sort processes count,
        p.cpu_percent ≤ q.cpu_percent) := by
  obtain ⟨hperm, hsorted⟩ := hsort processes
  have hsorted' : (sort processes).Pairwise (fun a b => b.cpu_percent ≤ a.cpu_percent) :=
    List.Pairwise.imp (fun {a b} h => (cpuGreater_eq_false_iff b a).mp h) hsorted
  rw [getTopProcesses_eq_take]
  have hsplit : ((sort processes).take count ++ (sort processes).drop count).Perm processes := by
    rw [List.take_append_drop]
    exact hperm
  refine ⟨?_, ?_, ?_, ⟨(sort processes).drop count, hsplit⟩, ?_⟩
  · rw [List.length_take, hperm.length_eq]
  · exact hsorted'.sublist (List.take_sublist _ _)
  · exact (List.take_sublist _ _).subperm.trans hperm.subperm
  · intro leftOut hleft p hp q hq
    have hdrop : leftOut.Perm ((sort processes).drop count) :=
      (List.perm_append_left_iff _).mp (hleft.trans hsplit.symm)
    have hp' : p ∈ (sort processes).drop count := hdrop.mem_iff.mp hp
    have hpw : ((sort processes).take count ++ (sort processes).drop count).Pairwise
        (fun a b => b.cpu_percent ≤ a.cpu_percent) := by
      rw [List.take_append_drop]
      exact hsorted'
    exact (List.pairwise_append.mp hpw).2.2 q hq p hp'

/-- Witness of C7: insertion sort on the scenario table, three places. -/
theorem getTopProcesses_ranking_witness :
    (getTopProcesses insertionSortByCpu scenarioProcesses 3).length
      = min 3 scenarioProcesses.length ∧
    (getTopProcesses insertionSortByCpu scenarioProcesses 3).Pairwise
      (fun a b => b.cpu_percent ≤ a.cpu_percent) ∧
    (getTopProcesses insertionSortByCpu scenarioProcesses 3).Subperm scenarioProcesses ∧
    (∃ leftOut : List ProcessInfo,
      (getTopProcesses insertionSortByCpu scenarioProcesses 3 ++ leftOut).Perm
        scenarioProcesses) ∧
    (∀ leftOut : List ProcessInfo,
      (getTopProcesses insertionSortByCpu scenarioProcesses 3 ++ leftOut).Perm
        scenarioProcesses →
      ∀ p ∈ leftOut, ∀ q ∈ getTopProcesses insertionSortByCpu scenarioProcesses 3,
        p.cpu_percent ≤ q.cpu_percent) :=
  getTopProcesses_ranking insertionSortByCpu isStdSort_insertionSortByCpu scenarioProcesses 3

theorem roundHalfEven_mono {q q' : ℚ} (h : q ≤ q') : roundHalfEven q ≤ roundHalfEven q' := by
  have hfl : ⌊q⌋ ≤ ⌊q'⌋ := Int.floor_mono h
  rcases eq_or_lt_of_le hfl with heq | hlt
  · unfold roundHalfEven
    simp only
    rw [← heq]
    have hr : q - (⌊q⌋ : ℚ) ≤ q' - (⌊q⌋ : ℚ) := by linarith
    split_ifs <;> first | omega | (exfalso; linarith)
  · have h1 := roundHalfEven_le_floor_add_one q
    have h2 := floor_le_roundHalfEven q'
    omega

/-- A positive number does not round below the power of two of its binade. -/
theorem zpow_log_le_roundDouble {x : ℚ} (hx : 0 < x) :
    (2 : ℚ) ^ Int.log 2 x ≤ roundDouble x := by
  unfold roundDouble
  rw [if_neg hx.ne']
  simp only
  rw [abs_of_pos hx]
  have hu : (0 : ℚ) < 2 ^ (Int.log 2 x - 52) := by positivity
  have hlog : (2 : ℚ) ^ Int.log 2 x ≤ x := by
    have := Int.zpow_log_le_self (b := 2) (by norm_num) hx
    exact_mod_cast this
  have hsplit : (2 : ℚ) ^ Int.log 2 x = ((2 ^ 52 : ℤ) : ℚ) * 2 ^ (Int.log 2 x - 52) := by
    have h52 : (((2 ^ 52 : ℤ)) : ℚ) = (2 : ℚ) ^ (52 : ℤ) := by norm_num
    rw [h52, ← zpow_add₀ (by norm_num : (2 : ℚ) ≠ 0)]
    congr 1
    omega
  have hq : (((2 ^ 52 : ℤ)) : ℚ) ≤ x / 2 ^ (Int.log 2 x - 52) := by
    rw [le_div_iff₀ hu, ← hsplit]
    exact hlog
  have hf : (2 ^ 52 : ℤ) ≤ ⌊x / (2 : ℚ) ^ (Int.log 2 x - 52)⌋ := Int.le_floor.mpr hq
  have hr : (2 ^ 52 : ℤ) ≤ roundHalfEven (x / 2 ^ (Int.log 2 x - 52)) :=
    le_trans hf (floor_le_roundHalfEven _)
  rw [hsplit]
  exact mul_le_mul_of_nonneg_right (by exact_mod_cast hr) hu.le

/-- Rounding to binary64 is monotone on the non-negative numbers. -/
theorem roundDouble_mono {x y : ℚ} (hx : 0 ≤ x) (hxy : x ≤ y) :
    roundDouble x ≤ roundDouble y := by
  rcases eq_or_lt_of_le hx with h0 | hpos
  · rw [← h0, roundDouble_zero]
    exact roundDouble_nonneg (le_trans hx hxy)
  · have hy : 0 < y := lt_of_lt_of_le hpos hxy
    have hlog : Int.log 2 x ≤ Int.log 2 y := Int.log_mono_right hpos hxy
    rcases eq_or_lt_of_le hlog with heq | hlt
    · unfold roundDouble
      rw [if_neg hpos.ne', if_neg hy.ne']
      simp only
      rw [abs_of_pos hpos, abs_of_pos hy, heq]
      have hu : (0 : ℚ) < 2 ^ (Int.log 2 y - 52) := by positivity
      have hq : x / 2 ^ (Int.log 2 y - 52) ≤ y / 2 ^ (Int.log 2 y - 52) :=
        div_le_div_of_nonneg_right hxy hu.le
      have hr := roundHalfEven_mono hq
      exact mul_le_mul_of_nonneg_right (by exact_mod_cast hr) hu.le
    · have hxlt : x < (2 : ℚ) ^ (Int.log 2 x + 1) := by
        have := Int.lt_zpow_succ_log_self (b := 2) (by norm_num) x
        exact_mod_cast this
      have hpow : (2 : ℚ) ^ (Int.log 2 x + 1) ≤ 2 ^ Int.log 2 y :=
        zpow_le_zpow_right₀ (by norm_num) (by omega)
      have h1 : roundDouble x ≤ ((1 : Nat) : ℚ) * 2 ^ Int.log 2 y :=
        roundDouble_le_of_le 1 (Int.log 2 y) (by norm_num) (by
          rw [Nat.cast_one, one_mul]
          exact le_trans hxlt.le hpow)
      rw [Nat.cast_one, one_mul] at h1
      exact le_trans h1 (zpow_log_le_roundDouble hy)

theorem toDouble_mono {a b : Nat} (h : a ≤ b) : toDouble a ≤ toDouble b :=
  roundDouble_mono (by positivity) (by exact_mod_cast h)

theorem toDouble_pos {a : Nat} (h : 0 < a) : 0 < toDouble a :=
  roundDouble_pos (by exact_mod_cast h)

/-- The load formula stays in `[0, 100]` when the idle difference is at most
the total difference. -/
theorem loadFormula_mem {idle_diff total_diff : Nat} (h : idle_diff ≤ total_diff)
    (ht : 0 < total_diff) :
    0 ≤ fmul 100 (fsub 1 (fdiv (toDouble idle_diff) (toDouble total_diff))) ∧
    fmul 100 (fsub 1 (fdiv (toDouble idle_diff) (toDouble total_diff))) ≤ 100 := by
  have hb : 0 < toDouble total_diff := toDouble_pos ht
  have ha : 0 ≤ toDouble idle_diff := roundDouble_nonneg (by positivity)
  have hab : toDouble idle_diff ≤ toDouble total_diff := toDouble_mono h
  have hq0 : 0 ≤ fdiv (toDouble idle_diff) (toDouble total_diff) :=
    roundDouble_nonneg (div_nonneg ha hb.le)
  have hq1 : fdiv (toDouble idle_diff) (toDouble total_diff) ≤ 1 :=
    roundDouble_le_one ((div_le_one hb).mpr hab)
  have hs0 : 0 ≤ fsub 1 (fdiv (toDouble idle_diff) (toDouble total_diff)) :=
    roundDouble_nonneg (by linarith)
  have hs1 : fsub 1 (fdiv (toDouble idle_diff) (toDouble total_diff)) ≤ 1 :=
    roundDouble_le_one (by linarith)
  exact ⟨roundDouble_nonneg (by positivity), roundDouble_le_hundred (by linarith)⟩

theorem totalTicks_eq_sum {c : CPUInfo} (h : c.user + c.system + c.idle + c.nice < 2 ^ 64) :
    totalTicks c = c.user + c.system + c.idle + c.nice := by
  unfold totalTicks
  rw [addU64_eq_add (a := c.user) (b := c.system) (by omega),
    addU64_eq_add (a := c.user + c.system) (b := c.idle) (by omega), addU64_eq_add h]

/-- `calculateCPULoad` in terms of the two 64-bit differences. -/
theorem calculateCPULoad_eq (prev current : CPUInfo) :
    calculateCPULoad prev current =
      if subU64 (totalTicks current) (totalTicks prev) = 0 then 0
      else fmul 100 (fsub 1 (fdiv (toDouble (subU64 current.idle prev.idle))
        (toDouble (subU64 (totalTicks current) (totalTicks prev))))) := rfl

/-- The load lies in `[0, 100]` when the 64-bit idle difference is at most the
64-bit total difference. -/
theorem calculateCPULoad_mem_of_le (prev current : CPUInfo)
    (h : subU64 current.idle prev.idle ≤ subU64 (totalTicks current) (totalTicks prev)) :
    0 ≤ calculateCPULoad prev current ∧ calculateCPULoad prev current ≤ 100 := by
  rw [calculateCPULoad_eq]
  split_ifs with h0
  · exact ⟨le_refl 0, by norm_num⟩
  · exact loadFormula_mem h (Nat.pos_of_ne_zero h0)

theorem mem_zipWith_calculateCPULoad {u : ℚ} :
    ∀ {prev info : List CPUInfo}, u ∈ List.zipWith calculateCPULoad prev info →
      ∃ pc ∈ List.zip prev info, u = calculateCPULoad pc.1 pc.2 := by
  intro prev
  induction prev with
  | nil =>
    intro info hu
    simp at hu
  | cons p ps ih =>
    intro info hu
    cases info with
    | nil => simp at hu
    | cons c cs =>
      simp only [List.zipWith_cons_cons, List.mem_cons] at hu
      rcases hu with rfl | hu
      · exact ⟨(p, c), by simp, rfl⟩
      · obtain ⟨pc, hpc, hval⟩ := ih hu
        exact ⟨pc, by simp [hpc], hval⟩

/-- The wrapped idle difference of the counterexample to the range claim. -/
theorem calculateCPULoad_idle_regression :
    calculateCPULoad ⟨0, 0, 1, 0⟩ ⟨2, 0, 0, 0⟩ = -1844674407370955161600 := by
  have t1 : totalTicks ⟨0, 0, 1, 0⟩ = 1 := by norm_num [totalTicks, addU64]
  have t2 : totalTicks ⟨2, 0, 0, 0⟩ = 2 := by norm_num [totalTicks, addU64]
  have d1 : subU64 2 1 = 1 := subU64_eq_sub (by norm_num) (by norm_num)
  have d2 : subU64 0 1 = 2 ^ 64 - (1 - 0) := subU64_eq_wrap (by norm_num) (by norm_num)
  have h : calculateCPULoad ⟨0, 0, 1, 0⟩ ⟨2, 0, 0, 0⟩
      = fmul 100 (fsub 1 (fdiv (toDouble (2 ^ 64 - (1 - 0))) (toDouble 1))) := by
    rw [calculateCPULoad_eq, t1, t2, d1, if_neg (by norm_num)]
    simp only [d2]
  have e1 : toDouble (2 ^ 64 - (1 - 0)) = 18446744073709551616 := by
    unfold toDouble
    rw [roundDouble_eval 63 (2 ^ 53)] <;> norm_num [abs_of_pos]
  have e2 : toDouble 1 = 1 := by
    rw [toDouble_of_lt (by norm_num)]
    norm_num
  have e3 : fdiv 18446744073709551616 1 = 18446744073709551616 := by
    unfold fdiv
    rw [roundDouble_eval 64 (2 ^ 52)] <;> norm_num [abs_of_pos]
  have e4 : fsub 1 18446744073709551616 = -18446744073709551616 := by
    unfold fsub
    rw [roundDouble_eval 63 (-2 ^ 53)] <;> norm_num [abs_of_neg]
  have e5 : fmul 100 (-18446744073709551616) = -1844674407370955161600 := by
    unfold fmul
    rw [roundDouble_eval 70 (-(25 * 2 ^ 48))] <;> norm_num [abs_of_neg]
  rw [h, e1, e2, e3, e4, e5]

/-- The vector of `getCPUUsage` lies in `[0, 100]` when, core by core, the
64-bit idle difference is at most the 64-bit total difference. -/
theorem getCPUUsage_mem_of_le (self : SystemMonitor) (info : List CPUInfo)
    (hlen : info.length ≤ self.prev_cpu_info.length)
    (h : ∀ pc ∈ List.zip self.prev_cpu_info info,
      subU64 pc.2.idle pc.1.idle ≤ subU64 (totalTicks pc.2) (totalTicks pc.1)) :
    ∃ (cpu_usage : List ℚ) (self' : SystemMonitor),
      getCPUUsage self (some info) = some (cpu_usage, self') ∧
      cpu_usage.length = info.length ∧ ∀ u ∈ cpu_usage, 0 ≤ u ∧ u ≤ 100 := by
  refine ⟨_, _, getCPUUsage_of_le self info hlen, ?_, ?_⟩
  · rw [List.length_zipWith]
    omega
  · intro u hu
    obtain ⟨pc, hpc, rfl⟩ := mem_zipWith_calculateCPULoad hu
    exact calculateCPULoad_mem_of_le pc.1 pc.2 (h pc hpc)

/-- C11, as the code behaves. The load `calculateCPULoad` returns lies in
`[0, 100]` for the samples whose 64-bit idle difference is at most their 64-bit
total difference, not for all samples; for such samples every element of the
vector of `getCPUUsage` lies in `[0, 100]`, also on the first call after the
construction. -/
theorem calculateCPULoad_range :
    (∀ prev current : CPUInfo,
      subU64 current.idle prev.idle ≤ subU64 (totalTicks current) (totalTicks prev) →
      0 ≤ calculateCPULoad prev current ∧ calculateCPULoad prev current ≤ 100) ∧
    (∀ (self : SystemMonitor) (info : List CPUInfo),
      info.length ≤ self.prev_cpu_info.length →
      (∀ pc ∈ List.zip self.prev_cpu_info info,
        subU64 pc.2.idle pc.1.idle ≤ subU64 (totalTicks pc.2) (totalTicks pc.1)) →
      ∃ (cpu_usage : List ℚ) (self' : SystemMonitor),
        getCPUUsage self (some info) = some (cpu_usage, self') ∧
        cpu_usage.length = info.length ∧ ∀ u ∈ cpu_usage, 0 ≤ u ∧ u ≤ 100) ∧
    (∀ (first info : List CPUInfo) (ifaddr : Option (List IfAddrs)) (now : Int),
      info.length ≤ first.length →
      (∀ pc ∈ List.zip first info,
        subU64 pc.2.idle pc.1.idle ≤ subU64 (totalTicks pc.2) (totalTicks pc.1)) →
      ∃ (cpu_usage : List ℚ) (self' : SystemMonitor),
        getCPUUsage (init (some first) ifaddr now) (some info) = some (cpu_usage, self') ∧
        cpu_usage.length = info.length ∧ ∀ u ∈ cpu_usage, 0 ≤ u ∧ u ≤ 100) := by
  refine ⟨calculateCPULoad_mem_of_le, getCPUUsage_mem_of_le, ?_⟩
  intro first info ifaddr now hlen h
  have hinit : (init (some first) ifaddr now).prev_cpu_info = first := rfl
  exact getCPUUsage_mem_of_le (init (some first) ifaddr now) info (by rw [hinit]; exact hlen)
    (by rw [hinit]; exact h)

/-- Witness of the amended C11: the scenario samples. -/
theorem calculateCPULoad_range_witness :
    subU64 820 800 ≤ subU64 (totalTicks ⟨120, 60, 820, 0⟩) (totalTicks ⟨100, 50, 800, 0⟩) ∧
    0 ≤ calculateCPULoad ⟨100, 50, 800, 0⟩ ⟨120, 60, 820, 0⟩ ∧
    calculateCPULoad ⟨100, 50, 800, 0⟩ ⟨120, 60, 820, 0⟩ ≤ 100 := by
  have h : subU64 820 800
      ≤ subU64 (totalTicks ⟨120, 60, 820, 0⟩) (totalTicks ⟨100, 50, 800, 0⟩) := by
    norm_num [totalTicks, addU64, subU64]
  exact ⟨h, calculateCPULoad_range.1 ⟨100, 50, 800, 0⟩ ⟨120, 60, 820, 0⟩ h⟩

/-- Counterexample to C11 as stated: the idle counter of the core falls from
`1` to `0` while the user counter rises from `0` to `2`. The load returned is
`-100 * 2 ^ 64`, below `0`; it is also the value `getCPUUsage` returns on the
first call after a construction that stored the first sample. -/
theorem calculateCPULoad_range_counterexample :
    calculateCPULoad ⟨0, 0, 1, 0⟩ ⟨2, 0, 0, 0⟩ = -1844674407370955161600 ∧
    (-1844674407370955161600 : ℚ) < 0 ∧
    getCPUUsage (init (some [⟨0, 0, 1, 0⟩]) none 0) (some [⟨2, 0, 0, 0⟩]) =
      some ([-1844674407370955161600], ⟨[⟨2, 0, 0, 0⟩], [], 0⟩) := by
  refine ⟨calculateCPULoad_idle_regression, by norm_num, ?_⟩
  rw [getCPUUsage_of_le _ _ (by simp [init])]
  show some ([calculateCPULoad ⟨0, 0, 1, 0⟩ ⟨2, 0, 0, 0⟩], _) = _
  rw [calculateCPULoad_idle_regression]
  rfl

/-- C14. When no counter of `current` is below the counter of `prev` and neither
sum of four counters overflows 64 bits, the idle difference is at most the
total difference (both are the differences the code computes) and the load
`calculateCPULoad` returns lies in `[0, 100]`. -/
theorem calculateCPULoad_range_of_monotone (prev current : CPUInfo)
    (hu : prev.user ≤ current.user) (hs : prev.system ≤ current.system)
    (hi : prev.idle ≤ current.idle) (hn : prev.nice ≤ current.nice)
    (hp : prev.user + prev.system + prev.idle + prev.nice < 2 ^ 64)
    (hc : current.user + current.system + current.idle + current.nice < 2 ^ 64) :
    current.idle - prev.idle ≤
      (current.user + current.system + current.idle + current.nice)
        - (prev.user + prev.system + prev.idle + prev.nice) ∧
    subU64 current.idle prev.idle = current.idle - prev.idle ∧
    subU64 (totalTicks current) (totalTicks prev) =
      (current.user + current.system + current.idle + current.nice)
        - (prev.user + prev.system + prev.idle + prev.nice) ∧
    0 ≤ calculateCPULoad prev current ∧ calculateCPULoad prev current ≤ 100 := by
  have hle : current.idle - prev.idle ≤
      (current.user + current.system + current.idle + current.nice)
        - (prev.user + prev.system + prev.idle + prev.nice) := by omega
  have d2 : subU64 current.idle prev.idle = current.idle - prev.idle :=
    subU64_eq_sub hi (by omega)
  have d1 : subU64 (totalTicks current) (totalTicks prev) =
      (current.user + current.system + current.idle + current.nice)
        - (prev.user + prev.system + prev.idle + prev.nice) := by
    rw [totalTicks_eq_sum hp, totalTicks_eq_sum hc]
    exact subU64_eq_sub (by omega) hc
  refine ⟨hle, d2, d1, ?_⟩
  apply calculateCPULoad_mem_of_le
  rw [d1, d2]
  exact hle

/-- Witness of C14: the scenario samples. -/
theorem calculateCPULoad_range_of_monotone_witness :
    820 - 800 ≤ (120 + 60 + 820 + 0) - (100 + 50 + 800 + 0) ∧
    subU64 820 800 = 820 - 800 ∧
    subU64 (totalTicks ⟨120, 60, 820, 0⟩) (totalTicks ⟨100, 50, 800, 0⟩) =
      (120 + 60 + 820 + 0) - (100 + 50 + 800 + 0) ∧
    0 ≤ calculateCPULoad ⟨100, 50, 800, 0⟩ ⟨120, 60, 820, 0⟩ ∧
    calculateCPULoad ⟨100, 50, 800, 0⟩ ⟨120, 60, 820, 0⟩ ≤ 100 :=
  calculateCPULoad_range_of_monotone ⟨100, 50, 800, 0⟩ ⟨120, 60, 820, 0⟩
    (by decide) (by decide) (by decide) (by decide) (by norm_num) (by norm_num)

/-! ## State after a sampling call -/

/-- C12. A sampling call stores the snapshot it obtained. After `getCPUUsage`
on a snapshot with at most as many cores as are stored, `prev_cpu_info[i]` is
the sample of core `i` of the snapshot for every core `i` of the snapshot (the
whole vector is the snapshot when the numbers of cores agree), and the network
members are untouched. After `getNetworkUsage`, `prev_net_info` is the current
interface map and `prev_net_time` the current time, both replaced in the same
call, and `prev_cpu_info` is untouched. -/
theorem sampling_stores_snapshot :
    (∀ (self : SystemMonitor) (info : List CPUInfo),
      info.length ≤ self.prev_cpu_info.length →
      ∃ (cpu_usage : List ℚ) (self' : SystemMonitor),
        getCPUUsage self (some info) = some (cpu_usage, self') ∧
        (∀ i, i < info.length → self'.prev_cpu_info[i]? = info[i]?) ∧
        self'.prev_cpu_info.length = self.prev_cpu_info.length ∧
        (info.length = self.prev_cpu_info.length → self'.prev_cpu_info = info) ∧
        self'.prev_net_info = self.prev_net_info ∧
        self'.prev_net_time = self.prev_net_time) ∧
    (∀ (self : SystemMonitor) (ifaddr : Option (List IfAddrs)) (current_time : Int),
      (getNetworkUsage self ifaddr current_time).2.prev_net_info = updateNetworkInfo ifaddr ∧
      (getNetworkUsage self ifaddr current_time).2.prev_net_time = current_time ∧
      (getNetworkUsage self ifaddr current_time).2.prev_cpu_info = self.prev_cpu_info) := by
  constructor
  · intro self info hlen
    refine ⟨_, _, getCPUUsage_of_le self info hlen, ?_, ?_, ?_, rfl, rfl⟩
    · intro i hi
      exact List.getElem?_append_left hi
    · simp only [List.length_append, List.length_drop]
      omega
    · intro heq
      have hd : self.prev_cpu_info.drop info.length = [] :=
        List.drop_eq_nil_of_le (by omega)
      simp only [hd, List.append_nil]
  · intro self ifaddr current_time
    exact ⟨rfl, rfl, rfl⟩

/-- Witness of C12: one core, the scenario samples. -/
theorem sampling_stores_snapshot_witness :
    ∃ (cpu_usage : List ℚ) (self' : SystemMonitor),
      getCPUUsage ⟨[⟨100, 50, 800, 0⟩], [], 0⟩ (some [⟨120, 60, 820, 0⟩])
        = some (cpu_usage, self') ∧
      (∀ i, i < [(⟨120, 60, 820, 0⟩ : CPUInfo)].length →
        self'.prev_cpu_info[i]? = [(⟨120, 60, 820, 0⟩ : CPUInfo)][i]?) ∧
      self'.prev_cpu_info.length = [(⟨100, 50, 800, 0⟩ : CPUInfo)].length ∧
      ([(⟨120, 60, 820, 0⟩ : CPUInfo)].length = [(⟨100, 50, 800, 0⟩ : CPUInfo)].length →
        self'.prev_cpu_info = [⟨120, 60, 820, 0⟩]) ∧
      self'.prev_net_info = [] ∧
      self'.prev_net_time = 0 :=
  sampling_stores_snapshot.1 ⟨[⟨100, 50, 800, 0⟩], [], 0⟩ [⟨120, 60, 820, 0⟩] (by simp)

/-! ## Loopback interface -/

theorem StdMap.mem_keys_index {V : Type} (m : StdMap V) (k k' : String) (dflt : V)
    (h : k' ∈ StdMap.keys (StdMap.index m k dflt).2) : k' = k ∨ k' ∈ StdMap.keys m := by
  unfold StdMap.index at h
  cases hf : StdMap.find m k with
  | none =>
    rw [hf] at h
    exact (StdMap.mem_keys_assign m k k' dflt).mp h
  | some v =>
    rw [hf] at h
    exact Or.inr h

/-- The loop of `updateNetworkInfo` adds no entry for `lo0`. -/
theorem updateNetworkInfoLoop_no_loopback (records : List IfAddrs) :
    ∀ info : StdMap NetworkInfo, "lo0" ∉ StdMap.keys info →
      "lo0" ∉ StdMap.keys (updateNetworkInfoLoop records info) := by
  induction records with
  | nil =>
    intro info h
    exact h
  | cons ifa rest ih =>
    intro info h
    unfold updateNetworkInfoLoop
    split
    · rename_i family iface_name _ _
      split_ifs with hfam hlo
      · exact ih info h
      · apply ih
        intro hmem
        have hne : "lo0" ≠ iface_name := fun hh => hlo hh.symm
        rcases (StdMap.mem_keys_assign _ _ _ _).mp hmem with h1 | h1
        · exact hne h1
        · rcases StdMap.mem_keys_index _ _ _ _ h1 with h2 | h2
          · exact hne h2
          · rcases (StdMap.mem_keys_assign _ _ _ _).mp h2 with h3 | h3
            · exact hne h3
            · rcases StdMap.mem_keys_index _ _ _ _ h3 with h4 | h4
              · exact hne h4
              · exact h h4
      · exact ih info h
    · exact ih info h

/-- C13. The map `updateNetworkInfo` builds from any list of interface records
has no entry for `lo0`, and so the result of `getNetworkUsage` has none, for
every stored state. From the records of `lo0` and `en0` the map built has the
single entry of `en0`. -/
theorem updateNetworkInfo_no_loopback :
    (∀ ifaddr : Option (List IfAddrs),
      "lo0" ∉ StdMap.keys (updateNetworkInfo ifaddr) ∧
      StdMap.find (updateNetworkInfo ifaddr) "lo0" = none) ∧
    (∀ (self : SystemMonitor) (ifaddr : Option (List IfAddrs)) (current_time : Int),
      "lo0" ∉ StdMap.keys (getNetworkUsage self ifaddr current_time).1 ∧
      StdMap.find (getNetworkUsage self ifaddr current_time).1 "lo0" = none) ∧
    updateNetworkInfo (some [⟨some "lo0", some AF_LINK, 7, 7⟩, ⟨some "en0", some AF_LINK, 5, 6⟩])
      = [("en0", ⟨5, 6⟩)] := by
  have hmap : ∀ ifaddr : Option (List IfAddrs),
      "lo0" ∉ StdMap.keys (updateNetworkInfo ifaddr) := by
    intro ifaddr
    unfold updateNetworkInfo
    cases ifaddr with
    | none => simp [StdMap.keys]
    | some records => exact updateNetworkInfoLoop_no_loopback records [] (by simp [StdMap.keys])
  have hres : ∀ (self : SystemMonitor) (ifaddr : Option (List IfAddrs)) (current_time : Int),
      "lo0" ∉ StdMap.keys (getNetworkUsage self ifaddr current_time).1 := by
    intro self ifaddr current_time hmem
    unfold getNetworkUsage at hmem
    simp only at hmem
    rcases (getNetworkUsageLoop_mem_keys _ _ _ _ _).mp hmem with h1 | ⟨h1, -⟩
    · simp [StdMap.keys] at h1
    · exact hmap ifaddr h1
  refine ⟨fun ifaddr => ⟨hmap ifaddr, StdMap.find_of_not_mem_keys _ _ (hmap ifaddr)⟩,
    fun self ifaddr t =>
      ⟨hres self ifaddr t, StdMap.find_of_not_mem_keys _ _ (hres self ifaddr t)⟩, ?_⟩
  simp [updateNetworkInfo, updateNetworkInfoLoop, AF_LINK, StdMap.index, StdMap.find,
    StdMap.assign]

/-! ## Disk usage -/

theorem roundHalfEven_eq_of_le_of_even {q : ℚ} {m : ℤ} (h1 : (m : ℚ) - 1 / 2 ≤ q)
    (h2 : q ≤ (m : ℚ) + 1 / 2) (heven : m % 2 = 0) : roundHalfEven q = m := by
  rcases eq_or_lt_of_le h1 with hlow | hlow
  · have hf : ⌊q⌋ = m - 1 := by
      rw [Int.floor_eq_iff]
      push_cast
      constructor <;> linarith
    unfold roundHalfEven
    simp only
    rw [hf]
    have hr : q - ((m - 1 : ℤ) : ℚ) = 1 / 2 := by
      push_cast
      linarith
    rw [hr]
    have hodd : ¬ ((m - 1) % 2 = 0) := by omega
    simp [hodd]
  · rcases eq_or_lt_of_le h2 with hup | hup
    · have hf : ⌊q⌋ = m := by
        rw [Int.floor_eq_iff]
        constructor <;> linarith
      unfold roundHalfEven
      simp only
      rw [hf]
      have hr : q - (m : ℚ) = 1 / 2 := by linarith
      rw [hr]
      simp [heven]
    · exact roundHalfEven_eq_of_lt hlow hup

/-- Evaluation of `roundDouble` where the quotient may lie half way between two
integers: the even integer `m` is taken. -/
theorem roundDouble_eval_even {x : ℚ} (e m : ℤ) (h1 : (2 : ℚ) ^ e ≤ |x|)
    (h2 : |x| < (2 : ℚ) ^ (e + 1)) (h3 : (m : ℚ) - 1 / 2 ≤ x / 2 ^ (e - 52))
    (h4 : x / 2 ^ (e - 52) ≤ (m : ℚ) + 1 / 2) (heven : m % 2 = 0) :
    roundDouble x = (m : ℚ) * 2 ^ (e - 52) := by
  have hx : x ≠ 0 := by
    intro h
    rw [h, abs_zero] at h1
    exact absurd h1 (not_le.mpr (by positivity))
  unfold roundDouble
  rw [if_neg hx]
  simp only
  rw [log_eq_of_bounds h1 h2, roundHalfEven_eq_of_le_of_even h3 h4 heven]

/-- The percentages of `getDiskUsage` are finite numbers: the division is
only reached with a positive divisor. -/
theorem getDiskUsage_eq (mounts : List Statfs) :
    getDiskUsage mounts =
      (mounts.filter (fun m => decide (m.f_fstypename ≠ "devfs"))).map
        (fun m => (m.f_mntonname,
          some (if 0 < diskTotal m then
            fdiv (fmul 100 (toDouble (diskUsed m))) (toDouble (diskTotal m)) else 0))) := by
  induction mounts with
  | nil => rfl
  | cons m rest ih =>
    unfold getDiskUsage
    by_cases h : m.f_fstypename = "devfs"
    · simp [h, ih]
    · by_cases ht : 0 < diskTotal m
      · have hne : toDouble (diskTotal m) ≠ 0 := (toDouble_pos ht).ne'
        simp [h, ih, ht, fdivChecked, hne]
      · simp [h, ih, ht]

/-- C9, as the code behaves. `getDiskUsage` lists, for every mount whose type is
not `devfs`, a finite percentage (no division by zero is carried out):
`100 * used / total` in double arithmetic when `total > 0` and exactly `0`
when `total = 0`, where `total` and `used` are the 64-bit values the code
computes from the block counts; the loop of `main` derives the same
percentages from `getDiskSizes`. These 64-bit values are
`f_blocks * f_bsize` and `total - f_bfree * f_bsize` when the product does not
overflow and `f_bfree ≤ f_blocks`. `50` of `100` GiB used gives `50`. -/
theorem getDiskUsage_percentage :
    (∀ mounts : List Statfs,
      getDiskUsage mounts =
        (mounts.filter (fun m => decide (m.f_fstypename ≠ "devfs"))).map
          (fun m => (m.f_mntonname,
            some (if 0 < diskTotal m then
              fdiv (fmul 100 (toDouble (diskUsed m))) (toDouble (diskTotal m)) else 0)))) ∧
    (∀ (mounts : List Statfs) (entry : String × Option ℚ),
      entry ∈ getDiskUsage mounts → entry.2 ≠ none) ∧
    (∀ mounts : List Statfs, mainDiskSection (getDiskSizes mounts) = getDiskUsage mounts) ∧
    (∀ m : Statfs, m.f_blocks * m.f_bsize < 2 ^ 64 → m.f_bfree ≤ m.f_blocks →
      diskTotal m = m.f_blocks * m.f_bsize ∧
      diskUsed m = m.f_blocks * m.f_bsize - m.f_bfree * m.f_bsize) ∧
    (∀ m : Statfs, m.f_fstypename ≠ "devfs" → diskTotal m = 0 →
      getDiskUsage [m] = [(m.f_mntonname, some 0)]) ∧
    getDiskUsage [⟨"apfs", "/", 26214400, 4096, 13107200⟩] = [("/", some 50)] := by
  refine ⟨getDiskUsage_eq, ?_, ?_, ?_, ?_, ?_⟩
  · intro mounts entry hmem
    rw [getDiskUsage_eq] at hmem
    obtain ⟨m, -, rfl⟩ := List.mem_map.mp hmem
    simp
  · intro mounts
    induction mounts with
    | nil => rfl
    | cons m rest ih =>
      unfold getDiskSizes getDiskUsage
      by_cases h : m.f_fstypename = "devfs"
      · simp [h, ih]
      · simp [h, ih, mainDiskSection]
  · intro m hmul hfree
    have hle : m.f_bfree * m.f_bsize ≤ m.f_blocks * m.f_bsize := Nat.mul_le_mul_right _ hfree
    have h1 : diskTotal m = m.f_blocks * m.f_bsize := by
      unfold diskTotal mulU64
      exact Nat.mod_eq_of_lt hmul
    have h2 : mulU64 m.f_bfree m.f_bsize = m.f_bfree * m.f_bsize := by
      unfold mulU64
      exact Nat.mod_eq_of_lt (lt_of_le_of_lt hle hmul)
    refine ⟨h1, ?_⟩
    unfold diskUsed
    rw [h1, h2, subU64_eq_sub hle hmul]
  · intro m hfs htotal
    rw [getDiskUsage_eq]
    simp [hfs, htotal]
  · rw [getDiskUsage_eq]
    have t : diskTotal ⟨"apfs", "/", 26214400, 4096, 13107200⟩ = 107374182400 := by
      norm_num [diskTotal, mulU64]
    have u : diskUsed ⟨"apfs", "/", 26214400, 4096, 13107200⟩ = 53687091200 := by
      norm_num [diskUsed, diskTotal, mulU64, subU64]
    have e1 : toDouble 53687091200 = 53687091200 := by
      rw [toDouble_of_lt (by norm_num)]
      norm_num
    have e2 : toDouble 107374182400 = 107374182400 := by
      rw [toDouble_of_lt (by norm_num)]
      norm_num
    have e3 : fmul 100 53687091200 = 5368709120000 := by
      unfold fmul
      have h := roundDouble_natCast (n := 5368709120000) (by norm_num)
      norm_num at h ⊢
      exact h
    have e4 : fdiv 5368709120000 107374182400 = 50 := by
      unfold fdiv
      have h := roundDouble_natCast (n := 50) (by norm_num)
      norm_num at h ⊢
      exact h
    simp [t, u, e1, e2, e3, e4]

/-- Witness of C9: a mount of `100` GiB with `50` GiB free. -/
theorem getDiskUsage_percentage_witness :
    (26214400 * 4096 < 2 ^ 64 ∧ 13107200 ≤ 26214400) ∧
    (diskTotal ⟨"apfs", "/", 26214400, 4096, 13107200⟩ = 26214400 * 4096 ∧
      diskUsed ⟨"apfs", "/", 26214400, 4096, 13107200⟩ = 26214400 * 4096 - 13107200 * 4096) :=
  ⟨⟨by norm_num, by norm_num⟩,
    getDiskUsage_percentage.2.2.2.1 ⟨"apfs", "/", 26214400, 4096, 13107200⟩
      (by norm_num) (by norm_num)⟩

/-- Counterexample to C9 as stated: a mount of `10` blocks of `512` bytes that
reports `20` free blocks. With `total = 10 * 512` and
`used = total - 20 * 512` the formula `100 * used / total` is `-100`; the
code's 64-bit `used` wraps to `2 ^ 64 - 5120` and the percentage listed is
`360287970189639552`. -/
theorem getDiskUsage_percentage_counterexample :
    getDiskUsage [⟨"apfs", "/", 10, 512, 20⟩] = [("/", some 360287970189639552)] ∧
    (100 * (((10 * 512 - 20 * 512 : ℤ)) : ℚ) / (((10 * 512 : ℤ)) : ℚ) = -100) ∧
    (360287970189639552 : ℚ) ≠ -100 := by
  refine ⟨?_, by norm_num, by norm_num⟩
  rw [getDiskUsage_eq]
  have t : diskTotal ⟨"apfs", "/", 10, 512, 20⟩ = 5120 := by
    norm_num [diskTotal, mulU64]
  have f : mulU64 20 512 = 10240 := by norm_num [mulU64]
  have u : diskUsed ⟨"apfs", "/", 10, 512, 20⟩ = 2 ^ 64 - (10240 - 5120) := by
    unfold diskUsed
    rw [t]
    show subU64 5120 (mulU64 20 512) = _
    rw [f]
    exact subU64_eq_wrap (by norm_num) (by norm_num)
  have e1 : toDouble (2 ^ 64 - (10240 - 5120)) = 18446744073709547520 := by
    unfold toDouble
    rw [roundDouble_eval_even 63 (2 ^ 53 - 2)] <;> norm_num [abs_of_pos]
  have e2 : toDouble 5120 = 5120 := by
    rw [toDouble_of_lt (by norm_num)]
    norm_num
  have e3 : fmul 100 18446744073709547520 = 1844674407370954637312 := by
    unfold fmul
    rw [roundDouble_eval 70 (100 * 2 ^ 46 - 2)] <;> norm_num [abs_of_pos]
  have e4 : fdiv 1844674407370954637312 5120 = 360287970189639552 := by
    unfold fdiv
    rw [roundDouble_eval 58 (20 * 2 ^ 48 - 2)] <;> norm_num [abs_of_pos]
  simp only [List.filter, List.map, t, u, e1, e2, e3, e4]
  simp

end SystemMonitor
